import Mathlib

/-!
# EMS double-entry ledger engine: a shallow embedding

This file embeds the accounting core of the EMS repository
(`packages/backend/src/services/accounting.service.ts`, the amortization
helpers of `packages/backend/src/utils/helpers.ts`, and the repayment
allocator of the loan service) and proves the frozen claims about it.

Modelling conventions:
* Monetary amounts are `ℚ`.  The source uses decimal.js configured with
  `precision: 20, rounding: ROUND_HALF_UP`; additions and subtractions of
  ledger amounts are exact there, and every concrete witness below uses
  values on which every decimal.js intermediate is exactly representable in
  20 significant digits, so exact rational arithmetic agrees with the source
  on them.  The 2-decimal output rounding (`toDecimalPlaces(2)` with
  `ROUND_HALF_UP`, i.e. half away from zero) is modelled explicitly.
* Optional JS numbers (`debitAmount?: number`) are `Option ℚ`; JS truthiness
  (`if (x)`, `x || 0`), under which both `undefined` and `0` are falsy, is
  modelled by `numOrZero`.
* Database state is a record of lists; prisma transactions are modelled by
  returning `Except`: an error result leaves the caller's state untouched,
  which is exactly the rollback-on-throw behaviour of `withTransaction`
  (every validation in the source throws before any row is written).
* `Date` keeps only the calendar fields the engine reads: `getFinancialPeriod`
  projects (year, month), and `entryDate ≤ asOfDate` filters use the
  lexicographic order on (year, month, day).
-/

namespace EMS

/-- Calendar date; only year/month/day are ever read by the engine. -/
structure Date where
  year : ℤ
  month : ℤ
  day : ℤ
deriving DecidableEq, Repr

/-- `getFinancialPeriod` from `utils/helpers.ts`: a date's (year, month). -/
def getFinancialPeriod (d : Date) : ℤ × ℤ := (d.year, d.month)

/-- Chronological order on dates (JS `Date` comparison, calendar fields). -/
def dateLE (a b : Date) : Bool :=
  a.year < b.year ∨ (a.year = b.year ∧
    (a.month < b.month ∨ (a.month = b.month ∧ a.day ≤ b.day)))

/-- Prisma enum `JournalStatus` (the values the engine uses). -/
inductive JournalStatus where
  | DRAFT
  | PENDING_APPROVAL
  | POSTED
deriving DecidableEq, Repr

/-- Prisma enum `PeriodStatus`. -/
inductive PeriodStatus where
  | OPEN
  | SOFT_CLOSE
  | HARD_CLOSE
deriving DecidableEq, Repr

/-- Prisma enum `BalanceType`: an account's normal-balance side. -/
inductive BalanceType where
  | DEBIT
  | CREDIT
deriving DecidableEq, Repr

/-- A `ChartOfAccounts` row, with the fields the engine reads. -/
structure Account where
  id : String
  accountCode : String
  normalBalance : BalanceType
  isActive : Bool
  isHeader : Bool
  openingBalance : ℚ
  currentBalance : ℚ
deriving DecidableEq, Repr

/-- `JournalLineInput` from `types/index.ts`: caller-supplied line with
optional debit/credit amounts. -/
structure JournalLineInput where
  accountId : String
  debitAmount : Option ℚ
  creditAmount : Option ℚ
deriving DecidableEq, Repr

/-- A persisted `JournalEntryLine` (amounts defaulted with `|| 0`). -/
structure JournalLine where
  accountId : String
  debitAmount : ℚ
  creditAmount : ℚ
deriving DecidableEq, Repr

/-- A persisted `JournalEntry` header together with its lines. -/
structure JournalEntry where
  id : ℕ
  entryDate : Date
  status : JournalStatus
  isReversed : Bool
  reversalEntryId : Option ℕ
  lines : List JournalLine
  totalDebit : ℚ
  totalCredit : ℚ
deriving DecidableEq, Repr

/-- Ledger database state: chart of accounts, journal, financial periods
(an association list keyed by (year, month); rows exist only once a period
has been closed), and the id sequence for new entries. -/
structure LState where
  accounts : List Account
  entries : List JournalEntry
  periods : List ((ℤ × ℤ) × PeriodStatus)
  nextId : ℕ
deriving DecidableEq, Repr

/-- The error taxonomy thrown by the engine (payloads kept where a claim
inspects them: `UnbalancedEntryError` carries both totals, `PeriodClosedError`
the period, the close guard its blocking-entry count). -/
inductive AccErr where
  | periodClosed : ℤ × ℤ → AccErr
  | unbalanced : ℚ → ℚ → AccErr
  | zeroValue : AccErr
  | invalidAccount : AccErr
  | notFound : AccErr
  | cannotPost : JournalStatus → AccErr
  | notPosted : AccErr
  | alreadyReversed : AccErr
  | cannotClose : ℕ → AccErr
  | workflow : AccErr
  | configError : AccErr
deriving DecidableEq, Repr

/-- JS `x || 0` / `if (x) acc.plus(x)`: `undefined` and `0` are falsy and
contribute nothing, any other number passes through. -/
def numOrZero (o : Option ℚ) : ℚ :=
  match o with
  | none => 0
  | some x => if x = 0 then 0 else x

/-- Contribution of an optional amount to the validation totals:
`line.debitAmount && line.debitAmount > 0` keeps strictly positive amounts
only. -/
def posAmount (o : Option ℚ) : ℚ :=
  match o with
  | none => 0
  | some x => if 0 < x then x else 0

/-- Sum of the strictly positive debit amounts of a line list. -/
def totalDebitOf (lines : List JournalLineInput) : ℚ :=
  (lines.map (fun l => posAmount l.debitAmount)).sum

/-- Sum of the strictly positive credit amounts of a line list. -/
def totalCreditOf (lines : List JournalLineInput) : ℚ :=
  (lines.map (fun l => posAmount l.creditAmount)).sum

/-- `AccountingService.validateEntryBalance`: totals must be equal
(`UnbalancedEntryError` reports both) and nonzero. -/
def validateEntryBalance (lines : List JournalLineInput) :
    Except AccErr (ℚ × ℚ) :=
  if totalDebitOf lines ≠ totalCreditOf lines then
    .error (.unbalanced (totalDebitOf lines) (totalCreditOf lines))
  else if totalDebitOf lines = 0 then
    .error .zeroValue
  else
    .ok (totalDebitOf lines, totalCreditOf lines)

/-- Status of a financial period row, if one exists. -/
def periodStatus (s : LState) (p : ℤ × ℤ) : Option PeriodStatus :=
  (s.periods.find? (fun r => r.1 = p)).map (fun r => r.2)

/-- `AccountingService.validatePeriodOpen`: fails only when a period row
exists for the date's (year, month) and its status is `HARD_CLOSE`. -/
def validatePeriodOpen (s : LState) (d : Date) : Option AccErr :=
  match periodStatus s (getFinancialPeriod d) with
  | some PeriodStatus.HARD_CLOSE =>
      some (.periodClosed (getFinancialPeriod d))
  | _ => none

/-- An account id that may be posted to: a row exists, active, non-header. -/
def accountOk (s : LState) (aid : String) : Bool :=
  s.accounts.any (fun a => a.id = aid ∧ a.isActive ∧ ¬a.isHeader)

/-- `AccountingService.validateAccounts`: the source compares the count of
rows found for the distinct referenced ids against the number of distinct
ids, which succeeds iff every referenced id resolves to an active,
non-header account. -/
def validateAccounts (s : LState) (ids : List String) : Bool :=
  ids.all (fun aid => accountOk s aid)

/-- Net raw debit of `lines` against one account (`updateAccountBalances`
grouping step; the source's `if (line.debitAmount)` truthiness guard is
`numOrZero`). -/
def lineDebits (lines : List JournalLineInput) (aid : String) : ℚ :=
  ((lines.filter (fun l => l.accountId = aid)).map
    (fun l => numOrZero l.debitAmount)).sum

/-- Net raw credit of `lines` against one account. -/
def lineCredits (lines : List JournalLineInput) (aid : String) : ℚ :=
  ((lines.filter (fun l => l.accountId = aid)).map
    (fun l => numOrZero l.creditAmount)).sum

/-- Signed balance delta of `lines` for account `a`:
`debit − credit` on a debit-normal account, `credit − debit` otherwise. -/
def balanceChange (a : Account) (lines : List JournalLineInput) : ℚ :=
  match a.normalBalance with
  | BalanceType.DEBIT => lineDebits lines a.id - lineCredits lines a.id
  | BalanceType.CREDIT => lineCredits lines a.id - lineDebits lines a.id

/-- `AccountingService.updateAccountBalances`: each account referenced by a
line has its cached `currentBalance` incremented by its signed delta. -/
def updateAccountBalances (accounts : List Account)
    (lines : List JournalLineInput) : List Account :=
  accounts.map (fun a =>
    if lines.any (fun l => l.accountId = a.id) then
      { a with currentBalance := a.currentBalance + balanceChange a lines }
    else a)

/-- Persist a line: amounts stored as `line.debitAmount || 0`. -/
def persistLine (l : JournalLineInput) : JournalLine :=
  { accountId := l.accountId
    debitAmount := numOrZero l.debitAmount
    creditAmount := numOrZero l.creditAmount }

/-- Result record returned by entry-creating operations. -/
structure JournalEntryResult where
  id : ℕ
  totalDebit : ℚ
  totalCredit : ℚ
  status : JournalStatus
deriving DecidableEq, Repr

/-- `AccountingService.createJournalEntry`: validate period, balance and
accounts in that order, then atomically persist header + lines, applying
balance deltas only when auto-posting. -/
def createJournalEntry (s : LState) (entryDate : Date)
    (lines : List JournalLineInput) (autoPost : Bool) :
    Except AccErr (JournalEntryResult × LState) :=
  match validatePeriodOpen s entryDate with
  | some e => .error e
  | none =>
    match validateEntryBalance lines with
    | .error e => .error e
    | .ok (totalDebit, totalCredit) =>
      if validateAccounts s (lines.map (fun l => l.accountId)) then
        let entry : JournalEntry :=
          { id := s.nextId
            entryDate := entryDate
            status := if autoPost then .POSTED else .DRAFT
            isReversed := false
            reversalEntryId := none
            lines := lines.map persistLine
            totalDebit := totalDebit
            totalCredit := totalCredit }
        let accounts' :=
          if autoPost then updateAccountBalances s.accounts lines
          else s.accounts
        .ok (⟨s.nextId, totalDebit, totalCredit, entry.status⟩,
          { s with
            accounts := accounts'
            entries := s.entries ++ [entry]
            nextId := s.nextId + 1 })
      else .error .invalidAccount

/-- Reading a persisted line back into input form
(`entry.lines.map` in `postJournalEntry`): the stored numbers are plain,
so `0` round-trips to a falsy value exactly as in JS. -/
def lineToInput (l : JournalLine) : JournalLineInput :=
  { accountId := l.accountId
    debitAmount := some l.debitAmount
    creditAmount := some l.creditAmount }

/-- `AccountingService.postJournalEntry`: only DRAFT/PENDING_APPROVAL
entries can be posted; the period of the entry's own date is re-checked at
posting time; the status change and the balance deltas are one atomic
unit. -/
def postJournalEntry (s : LState) (entryId : ℕ) :
    Except AccErr (JournalEntryResult × LState) :=
  match s.entries.find? (fun e => e.id = entryId) with
  | none => .error .notFound
  | some e =>
    if e.status ≠ JournalStatus.DRAFT ∧
       e.status ≠ JournalStatus.PENDING_APPROVAL then
      .error (.cannotPost e.status)
    else
      match validatePeriodOpen s e.entryDate with
      | some err => .error err
      | none =>
        let lines := e.lines.map lineToInput
        .ok (⟨e.id, e.totalDebit, e.totalCredit, .POSTED⟩,
          { s with
            entries := s.entries.map (fun e2 =>
              if e2.id = entryId then { e2 with status := .POSTED } else e2)
            accounts := updateAccountBalances s.accounts lines })

/-- The mirror lines of `reverseJournalEntry`: per line, debit and credit
swapped. -/
def reversalLinesOf (ls : List JournalLine) : List JournalLineInput :=
  ls.map (fun l =>
    { accountId := l.accountId
      debitAmount := some l.creditAmount
      creditAmount := some l.debitAmount })

/-- `AccountingService.reverseJournalEntry`: only a POSTED, not yet
reversed entry can be reversed; the original is marked reversed, a mirror
entry is created with `autoPost := true`, and the two are linked.  A failure
of the inner `createJournalEntry` aborts the whole transaction. -/
def reverseJournalEntry (s : LState) (entryId : ℕ) (effectiveDate : Date) :
    Except AccErr (JournalEntryResult × LState) :=
  match s.entries.find? (fun e => e.id = entryId) with
  | none => .error .notFound
  | some e =>
    if e.status ≠ JournalStatus.POSTED then .error .notPosted
    else if e.isReversed then .error .alreadyReversed
    else
      match validatePeriodOpen s effectiveDate with
      | some err => .error err
      | none =>
        match createJournalEntry
            { s with entries := s.entries.map (fun e2 =>
                if e2.id = entryId then { e2 with isReversed := true } else e2) }
            effectiveDate (reversalLinesOf e.lines) true with
        | .error err => .error err
        | .ok (res, s2) =>
          .ok (res,
            { s2 with entries := s2.entries.map (fun e2 =>
                if e2.id = entryId then
                  { e2 with reversalEntryId := some res.id }
                else e2) })

/-- The optional `asOfDate` filter: no bound, or `entryDate ≤ asOfDate`. -/
def withinAsOf (asOfDate : Option Date) (d : Date) : Bool :=
  match asOfDate with
  | none => true
  | some bound => dateLE d bound

/-- Lines visible to `getAccountBalance`: lines of POSTED entries whose
entry date is within the optional `asOfDate` bound, restricted to one
account. -/
def postedLinesFor (s : LState) (aid : String) (asOfDate : Option Date) :
    List JournalLine :=
  ((s.entries.filter (fun e =>
      e.status = JournalStatus.POSTED ∧
      withinAsOf asOfDate e.entryDate)).map
    (fun e => e.lines.filter (fun l => l.accountId = aid))).flatten

/-- Result of `getAccountBalance`. -/
structure BalanceResult where
  debitTotal : ℚ
  creditTotal : ℚ
  balance : ℚ
deriving DecidableEq, Repr

/-- Balance reconstruction for a known account row: opening balance plus
the signed sum of the account's posted lines up to the date. -/
def accountBalanceValue (s : LState) (a : Account) (asOfDate : Option Date) :
    BalanceResult :=
  let ls := postedLinesFor s a.id asOfDate
  let debitTotal := (ls.map (fun l => l.debitAmount)).sum
  let creditTotal := (ls.map (fun l => l.creditAmount)).sum
  let balance :=
    match a.normalBalance with
    | BalanceType.DEBIT => a.openingBalance + debitTotal - creditTotal
    | BalanceType.CREDIT => a.openingBalance + creditTotal - debitTotal
  ⟨debitTotal, creditTotal, balance⟩

/-- First account row with a given id (prisma `findUnique`). -/
def accountById (s : LState) (aid : String) : Option Account :=
  s.accounts.find? (fun a => a.id = aid)

/-- `AccountingService.getAccountBalance`. -/
def getAccountBalance (s : LState) (aid : String) (asOfDate : Option Date) :
    Except AccErr BalanceResult :=
  match accountById s aid with
  | none => .error .notFound
  | some a => .ok (accountBalanceValue s a asOfDate)

/-- One row of the trial balance (account name/type metadata omitted). -/
structure TrialBalanceRow where
  accountCode : String
  debitBalance : ℚ
  creditBalance : ℚ
deriving DecidableEq, Repr

/-- A computed balance presented on the account's normal side, with a
contra (negative) balance flipped to the other column. -/
def trialColumns (a : Account) (balance : ℚ) : ℚ × ℚ :=
  match a.normalBalance with
  | BalanceType.DEBIT =>
    if 0 ≤ balance then (balance, 0) else (0, |balance|)
  | BalanceType.CREDIT =>
    if 0 ≤ balance then (0, balance) else (|balance|, 0)

/-- `AccountingService.generateTrialBalance`: every active non-header
account's balance is computed as of the date, zero-balance accounts are
skipped, and the two columns are totalled.  (The source orders rows by
account code; row membership and the totals do not depend on the order.) -/
def generateTrialBalance (s : LState) (asOfDate : Option Date) :
    List TrialBalanceRow × (ℚ × ℚ) :=
  let eligible := s.accounts.filter (fun a => a.isActive ∧ ¬a.isHeader)
  let rows := (eligible.map (fun a =>
      let b := (accountBalanceValue s a asOfDate).balance
      let cols := trialColumns a b
      TrialBalanceRow.mk a.accountCode cols.1 cols.2)).filter
    (fun r => r.debitBalance ≠ 0 ∨ r.creditBalance ≠ 0)
  (rows, ((rows.map (fun r => r.debitBalance)).sum,
          (rows.map (fun r => r.creditBalance)).sum))

/-- Close type argument of `closePeriod`. -/
inductive CloseKind where
  | SOFT
  | HARD
deriving DecidableEq, Repr

/-- The status `closePeriod` writes:
`closeType === 'HARD_CLOSE' ? HARD_CLOSE : SOFT_CLOSE`. -/
def closeStatusOf (ct : CloseKind) : PeriodStatus :=
  match ct with
  | CloseKind.HARD => PeriodStatus.HARD_CLOSE
  | CloseKind.SOFT => PeriodStatus.SOFT_CLOSE

/-- Entries that block closing a period: dated inside it and still DRAFT or
PENDING_APPROVAL. -/
def unpostedIn (s : LState) (year month : ℤ) : ℕ :=
  (s.entries.filter (fun e =>
    getFinancialPeriod e.entryDate = (year, month) ∧
    (e.status = JournalStatus.DRAFT ∨
     e.status = JournalStatus.PENDING_APPROVAL))).length

/-- `AccountingService.closePeriod`: refuses while any entry dated in the
period is DRAFT or PENDING_APPROVAL (reporting the count), then upserts the
period row to SOFT_CLOSE or HARD_CLOSE, unconditionally on any previous
status. -/
def closePeriod (s : LState) (year month : ℤ) (closeType : CloseKind) :
    Except AccErr LState :=
  if 0 < unpostedIn s year month then
    .error (.cannotClose (unpostedIn s year month))
  else if (s.periods.find? (fun r => r.1 = (year, month))).isSome then
    .ok { s with periods := s.periods.map (fun r =>
      if r.1 = (year, month) then (r.1, closeStatusOf closeType) else r) }
  else
    .ok { s with periods := s.periods ++ [((year, month), closeStatusOf closeType)] }

/-! ## Amortization calculator (`utils/helpers.ts`) -/

/-- decimal.js `toDecimalPlaces(2)` under the configured `ROUND_HALF_UP`
(half rounds away from zero). -/
def round2 (q : ℚ) : ℚ :=
  if 0 ≤ q then (⌊q * 100 + 1 / 2⌋ : ℤ) / 100
  else -((⌊-q * 100 + 1 / 2⌋ : ℤ) / 100 : ℚ)

/-- One row of a repayment schedule.  The monetary output fields carry the
2-dp rounding the source applies on output; `exactPrincipalDue` and
`exactInterestDue` additionally expose the unrounded values the loop
actually carries in `balance`/`totalInterest` (verification
instrumentation, projected away by the rounded fields). -/
structure ScheduleItem where
  installmentNumber : ℕ
  principalDue : ℚ
  interestDue : ℚ
  totalDue : ℚ
  outstandingBalance : ℚ
  exactPrincipalDue : ℚ
  exactInterestDue : ℚ
deriving DecidableEq, Repr

/-- The loop body of `calculateReducingBalanceSchedule`: at each period,
interest on the running balance, principal as EMI minus interest, and the
final period forces a nonzero residual balance to exactly zero.  `k` counts
the remaining periods (the source's `i === tenureMonths` is `k = 0`),
`idx` the current installment number. -/
def reducingLoop (emi r : ℚ) (idx : ℕ) (bal : ℚ) : (k : ℕ) → List ScheduleItem
  | 0 => []
  | k + 1 =>
    let interestDue := bal * r
    let principalDue := emi - interestDue
    let bal1 := bal - principalDue
    let bal2 := if k = 0 ∧ bal1 ≠ 0 then 0 else bal1
    { installmentNumber := idx
      principalDue := round2 principalDue
      interestDue := round2 interestDue
      totalDue := round2 emi
      outstandingBalance := round2 bal2
      exactPrincipalDue := principalDue
      exactInterestDue := interestDue } :: reducingLoop emi r (idx + 1) bal2 k

/-- Result record of the schedule calculators. -/
structure ScheduleResult where
  totalInterest : ℚ
  totalRepayment : ℚ
  monthlyInstalment : ℚ
  schedule : List ScheduleItem
deriving DecidableEq, Repr

/-- `calculateReducingBalanceSchedule`: monthly rate `annualRate/100/12`,
EMI `P·r·(1+r)^n / ((1+r)^n − 1)`, then the per-period loop.  (Due dates
are not modelled; no claim reads them.) -/
def calculateReducingBalanceSchedule (principal annualRate : ℚ)
    (tenureMonths : ℕ) : ScheduleResult :=
  let monthlyRate := annualRate / 100 / 12
  let onePlusR := monthlyRate + 1
  let onePlusRPowerN := onePlusR ^ tenureMonths
  let emi := principal * monthlyRate * onePlusRPowerN / (onePlusRPowerN - 1)
  let schedule := reducingLoop emi monthlyRate 1 principal tenureMonths
  let totalInterest := (schedule.map (fun it => it.exactInterestDue)).sum
  { totalInterest := round2 totalInterest
    totalRepayment := round2 (principal + totalInterest)
    monthlyInstalment := round2 emi
    schedule := schedule }

/-! ## Repayment allocator (`LoanService.processRepayment`) -/

/-- Prisma enum `ScheduleStatus`.  The source's `PARTIAL` is rendered
`PART_PAID` here; all other constructor names match the source. -/
inductive ScheduleStatus where
  | PENDING
  | PART_PAID
  | PAID
  | OVERDUE
deriving DecidableEq, Repr

/-- Prisma enum `LoanStatus` (the values `processRepayment` reads). -/
inductive LoanStatus where
  | ACTIVE
  | OVERDUE
  | CLOSED
  | PENDING
deriving DecidableEq, Repr

/-- A `LoanSchedule` row (one installment) with the fields the allocator
reads and writes. -/
structure LoanScheduleRow where
  id : String
  dueDate : Date
  principalDue : ℚ
  interestDue : ℚ
  principalPaid : ℚ
  interestPaid : ℚ
  status : ScheduleStatus
deriving DecidableEq, Repr

/-- One element of the source's `scheduleUpdates` array: the payment
amounts allocated to a row in this run and its new status. -/
structure ScheduleUpdate where
  id : String
  principalPaid : ℚ
  interestPaid : ℚ
  status : ScheduleStatus
deriving DecidableEq, Repr

/-- The allocation loop of `processRepayment` over the outstanding rows in
list order (the query returns them ordered `dueDate asc`): stop when the
remaining amount hits zero, skip rows with nothing outstanding, otherwise
satisfy outstanding interest first, then outstanding principal, and record
status PAID exactly when both cumulative paid amounts reach their dues.
Returns the remaining amount and the update list. -/
def allocatePayment : ℚ → List LoanScheduleRow → ℚ × List ScheduleUpdate
  | remaining, [] => (remaining, [])
  | remaining, sch :: rest =>
    if remaining = 0 then (remaining, [])
    else
      let principalDue := sch.principalDue - sch.principalPaid
      let interestDue := sch.interestDue - sch.interestPaid
      let totalDue := principalDue + interestDue
      if totalDue = 0 then allocatePayment remaining rest
      else
        let interestPayment := min interestDue remaining
        let rem1 := remaining - interestPayment
        let principalPayment := min principalDue rem1
        let rem2 := rem1 - principalPayment
        let newPrincipalPaid := sch.principalPaid + principalPayment
        let newInterestPaid := sch.interestPaid + interestPayment
        let isFullyPaid := sch.principalDue ≤ newPrincipalPaid ∧
                           sch.interestDue ≤ newInterestPaid
        let upd : ScheduleUpdate :=
          { id := sch.id
            principalPaid := principalPayment
            interestPaid := interestPayment
            status := if isFullyPaid then .PAID else .PART_PAID }
        let out := allocatePayment rem2 rest
        (out.1, upd :: out.2)

/-- The account codes of `LOAN_ACCOUNTS` used by `processRepayment`. -/
def LOANS_RECEIVABLE_CODE : String := "1300"

/-- Cash/bank account code of `LOAN_ACCOUNTS`. -/
def CASH_BANK_CODE : String := "1100"

/-- Interest-income account code of `LOAN_ACCOUNTS`. -/
def INTEREST_INCOME_CODE : String := "4100"

/-- prisma `findFirst` by account code. -/
def accountByCode (s : LState) (code : String) : Option Account :=
  s.accounts.find? (fun a => a.accountCode = code)

/-- A `LoanRepayment` row (the fields a claim inspects). -/
structure RepaymentRecord where
  amount : ℚ
  principalPortion : ℚ
  interestPortion : ℚ
deriving DecidableEq, Repr

/-- State touched by `processRepayment`: the ledger, one loan's status and
schedule rows, and its repayment records. -/
structure RepayState where
  ledger : LState
  loanStatus : LoanStatus
  schedules : List LoanScheduleRow
  repayments : List RepaymentRecord
deriving DecidableEq, Repr

/-- Rows the repayment query fetches: status PENDING, PARTIAL or OVERDUE
(order `dueDate asc` is the stored order here). -/
def outstandingRows (rows : List LoanScheduleRow) : List LoanScheduleRow :=
  rows.filter (fun sch =>
    sch.status = ScheduleStatus.PENDING ∨
    sch.status = ScheduleStatus.PART_PAID ∨
    sch.status = ScheduleStatus.OVERDUE)

/-- The journal lines `processRepayment` derives: a cash debit for the full
payment, a loans-receivable credit for the principal portion and an
interest-income credit for the interest portion, each credit emitted only
when its portion is positive. -/
def repaymentLines (cashId lrId iiId : String) (amount allocP allocI : ℚ) :
    List JournalLineInput :=
  [⟨cashId, some amount, none⟩] ++
  (if 0 < allocP then [⟨lrId, none, some allocP⟩] else []) ++
  (if 0 < allocI then [⟨iiId, none, some allocI⟩] else [])

/-- Apply the collected `scheduleUpdates` to the loan's rows (the source
increments the paid amounts and sets the status row-by-row by id). -/
def applyScheduleUpdates (rows : List LoanScheduleRow)
    (upds : List ScheduleUpdate) : List LoanScheduleRow :=
  rows.map (fun sch =>
    match upds.find? (fun u => u.id = sch.id) with
    | some u =>
      { sch with
        principalPaid := sch.principalPaid + u.principalPaid
        interestPaid := sch.interestPaid + u.interestPaid
        status := u.status }
    | none => sch)

/-- Result of `processRepayment` (the allocation split it reports). -/
structure RepayResult where
  journalEntryId : ℕ
  principal : ℚ
  interest : ℚ
deriving DecidableEq, Repr

/-- `LoanService.processRepayment`: guard the loan status, resolve the three
configured accounts, allocate the payment FIFO over the outstanding rows,
post one journal entry (cash debit; credits for the allocated portions),
then — in the same transaction — record the repayment, apply the schedule
updates, and close the loan when no unpaid row remains.  Any error from the
posting aborts the transaction with no state change. -/
def processRepayment (rs : RepayState) (amount : ℚ) (today : Date) :
    Except AccErr (RepayResult × RepayState) :=
  if rs.loanStatus ≠ LoanStatus.ACTIVE ∧ rs.loanStatus ≠ LoanStatus.OVERDUE
  then .error .workflow
  else
    match accountByCode rs.ledger LOANS_RECEIVABLE_CODE,
          accountByCode rs.ledger CASH_BANK_CODE,
          accountByCode rs.ledger INTEREST_INCOME_CODE with
    | some loansReceivable, some cashBank, some interestIncome =>
      let out := allocatePayment amount (outstandingRows rs.schedules)
      let upds := out.2
      let allocP := (upds.map (fun u => u.principalPaid)).sum
      let allocI := (upds.map (fun u => u.interestPaid)).sum
      let journalLines :=
        repaymentLines cashBank.id loansReceivable.id interestIncome.id
          amount allocP allocI
      match createJournalEntry rs.ledger today journalLines true with
      | .error e => .error e
      | .ok (res, ledger') =>
        let schedules' := applyScheduleUpdates rs.schedules upds
        let allPaid := (schedules'.filter
          (fun sch => sch.status ≠ ScheduleStatus.PAID)).length = 0
        .ok (⟨res.id, allocP, allocI⟩,
          { ledger := ledger'
            loanStatus := if allPaid then LoanStatus.CLOSED else rs.loanStatus
            schedules := schedules'
            repayments := rs.repayments ++ [⟨amount, allocP, allocI⟩] })
    | _, _, _ => .error .configError

/-! ## Posted history and reachable states -/

/-- Positive part of a stored amount. -/
def posPart (q : ℚ) : ℚ := if 0 < q then q else 0

/-- Sum of the strictly positive stored debit amounts of persisted lines. -/
def storedPosDebit (ls : List JournalLine) : ℚ :=
  (ls.map (fun l => posPart l.debitAmount)).sum

/-- Sum of the strictly positive stored credit amounts of persisted lines. -/
def storedPosCredit (ls : List JournalLine) : ℚ :=
  (ls.map (fun l => posPart l.creditAmount)).sum

/-- Raw debit total of persisted lines against one account. -/
def storedDebits (ls : List JournalLine) (aid : String) : ℚ :=
  ((ls.filter (fun l => l.accountId = aid)).map (fun l => l.debitAmount)).sum

/-- Raw credit total of persisted lines against one account. -/
def storedCredits (ls : List JournalLine) (aid : String) : ℚ :=
  ((ls.filter (fun l => l.accountId = aid)).map (fun l => l.creditAmount)).sum

/-- Signed effect of persisted lines on an account with normal side `nb`. -/
def storedDelta (nb : BalanceType) (aid : String) (ls : List JournalLine) : ℚ :=
  match nb with
  | BalanceType.DEBIT => storedDebits ls aid - storedCredits ls aid
  | BalanceType.CREDIT => storedCredits ls aid - storedDebits ls aid

/-- Signed effect of one journal entry on an account: zero unless POSTED. -/
def entryPostedDelta (nb : BalanceType) (aid : String) (e : JournalEntry) : ℚ :=
  if e.status = JournalStatus.POSTED then storedDelta nb aid e.lines else 0

/-- Replay of the whole posted history for one account. -/
def postedSum (entries : List JournalEntry) (nb : BalanceType)
    (aid : String) : ℚ :=
  (entries.map (entryPostedDelta nb aid)).sum

/-- Invariant: every cached balance equals opening balance plus the replay
of the account's posted history. -/
def BalancesCached (s : LState) : Prop :=
  ∀ a ∈ s.accounts,
    a.currentBalance = a.openingBalance + postedSum s.entries a.normalBalance a.id

/-- Invariant: entry ids are distinct and below the id sequence. -/
def EntryIdsOk (s : LState) : Prop :=
  (s.entries.map (fun e => e.id)).Nodup ∧ ∀ e ∈ s.entries, e.id < s.nextId

/-- Invariant: every persisted entry passed `validateEntryBalance`: its
stored totals are the positive-part sums of its lines, equal and nonzero. -/
def EntryTotalsOk (s : LState) : Prop :=
  ∀ e ∈ s.entries,
    e.totalDebit = storedPosDebit e.lines ∧
    e.totalCredit = storedPosCredit e.lines ∧
    e.totalDebit = e.totalCredit ∧ e.totalDebit ≠ 0

/-- Invariant: no period row ever carries status OPEN (rows are only
written by `closePeriod`, which writes SOFT_CLOSE or HARD_CLOSE). -/
def NoOpenRow (s : LState) : Prop :=
  ∀ p st, periodStatus s p = some st → st ≠ PeriodStatus.OPEN

/-- Invariant: account ids are unique (database primary key), and every
persisted line references an active, non-header account
(`validateAccounts` checked it at creation and no operation of the engine
deactivates an account). -/
def AccountsOk (s : LState) : Prop :=
  (s.accounts.map (fun a => a.id)).Nodup ∧
  ∀ e ∈ s.entries, ∀ l ∈ e.lines, accountOk s l.accountId = true

/-- All state invariants together. -/
def WFState (s : LState) : Prop :=
  BalancesCached s ∧ EntryIdsOk s ∧ EntryTotalsOk s ∧ NoOpenRow s ∧
    AccountsOk s

/-- Reachable database states: start from a freshly seeded chart of
accounts with no journal entries and no period rows, then apply the
engine's mutating operations.  The seed (`auth.routes.ts`) creates account
rows without opening or current balances, so both take the schema defaults.
Modelled from the spec: the prisma schema is not among the sources; per the
persisted-state contract of §6 a cached balance replays from the opening
balance over the (empty) history, i.e. `currentBalance = openingBalance`
at account creation. -/
inductive Reachable : LState → Prop where
  | init (accounts : List Account)
      (h : ∀ a ∈ accounts, a.currentBalance = a.openingBalance)
      (hnodup : (accounts.map (fun a => a.id)).Nodup) :
      Reachable ⟨accounts, [], [], 0⟩
  | create {s s' : LState} {d : Date} {lines : List JournalLineInput}
      {auto : Bool} {r : JournalEntryResult} (hs : Reachable s)
      (h : createJournalEntry s d lines auto = .ok (r, s')) : Reachable s'
  | post {s s' : LState} {k : ℕ} {r : JournalEntryResult} (hs : Reachable s)
      (h : postJournalEntry s k = .ok (r, s')) : Reachable s'
  | reverse {s s' : LState} {k : ℕ} {d : Date} {r : JournalEntryResult}
      (hs : Reachable s) (h : reverseJournalEntry s k d = .ok (r, s')) :
      Reachable s'
  | close {s s' : LState} {y m : ℤ} {ct : CloseKind} (hs : Reachable s)
      (h : closePeriod s y m ct = .ok s') : Reachable s'

/-! ### Elementary lemmas about amounts and persisted lines -/

theorem numOrZero_some (x : ℚ) : numOrZero (some x) = x := by
  by_cases h : x = 0 <;> simp [numOrZero, h]

theorem posAmount_eq_posPart (o : Option ℚ) :
    posAmount o = posPart (numOrZero o) := by
  cases o with
  | none => simp [posAmount, posPart, numOrZero]
  | some x =>
    by_cases h : x = 0 <;> simp [posAmount, posPart, numOrZero, h, numOrZero_some]

theorem persistLine_lineToInput (l : JournalLine) :
    persistLine (lineToInput l) = l := by
  simp [persistLine, lineToInput, numOrZero_some]

/-- Summation distributes over pointwise subtraction. -/
theorem sum_map_sub {α : Type} (l : List α) (f g : α → ℚ) :
    (l.map (fun x => f x - g x)).sum = (l.map f).sum - (l.map g).sum := by
  induction l with
  | nil => simp
  | cons x xs ih => simp [ih]; ring

/-- Summing a filtered list equals summing an if-guarded function. -/
theorem sum_map_filter_eq {α : Type} (l : List α) (p : α → Bool) (g : α → ℚ) :
    ((l.filter p).map g).sum = (l.map (fun x => if p x then g x else 0)).sum := by
  induction l with
  | nil => rfl
  | cons x xs ih =>
    by_cases hx : p x <;> simp [List.filter_cons, hx, ih]

/-- The validation totals of input lines equal the positive-part sums of
their persisted forms. -/
theorem totalDebitOf_persist (lines : List JournalLineInput) :
    storedPosDebit (lines.map persistLine) = totalDebitOf lines := by
  unfold storedPosDebit totalDebitOf
  rw [List.map_map]
  refine congrArg _ (List.map_congr_left fun l _ => ?_)
  simp [persistLine, posAmount_eq_posPart]

theorem totalCreditOf_persist (lines : List JournalLineInput) :
    storedPosCredit (lines.map persistLine) = totalCreditOf lines := by
  unfold storedPosCredit totalCreditOf
  rw [List.map_map]
  refine congrArg _ (List.map_congr_left fun l _ => ?_)
  simp [persistLine, posAmount_eq_posPart]

/-- The balance delta applied from the input lines coincides with the
signed effect of their persisted forms. -/
theorem balanceChange_eq_storedDelta (a : Account)
    (lines : List JournalLineInput) :
    balanceChange a lines =
      storedDelta a.normalBalance a.id (lines.map persistLine) := by
  have hd : storedDebits (lines.map persistLine) a.id = lineDebits lines a.id := by
    unfold storedDebits lineDebits
    rw [List.filter_map, List.map_map]
    rfl
  have hc : storedCredits (lines.map persistLine) a.id = lineCredits lines a.id := by
    unfold storedCredits lineCredits
    rw [List.filter_map, List.map_map]
    rfl
  unfold balanceChange storedDelta
  cases a.normalBalance <;> rw [hd, hc]

/-- Re-reading persisted lines through `lineToInput` and persisting them
again is the identity. -/
theorem persist_lineToInput_map (ls : List JournalLine) :
    (ls.map lineToInput).map persistLine = ls := by
  rw [List.map_map]
  simpa using List.map_congr_left fun l _ => persistLine_lineToInput l

/-- The balance delta computed by `postJournalEntry` from the stored lines
is the stored signed effect. -/
theorem balanceChange_lineToInput (a : Account) (ls : List JournalLine) :
    balanceChange a (ls.map lineToInput) =
      storedDelta a.normalBalance a.id ls := by
  rw [balanceChange_eq_storedDelta, persist_lineToInput_map]

/-! ### Inversion lemmas for the mutating operations -/

/-! ### Inversion lemmas for the mutating operations -/

theorem validateEntryBalance_ok {lines : List JournalLineInput} {p : ℚ × ℚ}
    (h : validateEntryBalance lines = .ok p) :
    p = (totalDebitOf lines, totalCreditOf lines) ∧
    totalDebitOf lines = totalCreditOf lines ∧ totalDebitOf lines ≠ 0 := by
  unfold validateEntryBalance at h
  split at h
  · exact absurd h (by simp)
  · split at h
    · exact absurd h (by simp)
    · rename_i h1 h2
      injection h with h
      exact ⟨h.symm, not_not.mp h1, h2⟩

/-- The entry record `createJournalEntry` persists. -/
def newEntryOf (s : LState) (d : Date) (lines : List JournalLineInput)
    (auto : Bool) : JournalEntry :=
  { id := s.nextId
    entryDate := d
    status := if auto then .POSTED else .DRAFT
    isReversed := false
    reversalEntryId := none
    lines := lines.map persistLine
    totalDebit := totalDebitOf lines
    totalCredit := totalCreditOf lines }

theorem createJournalEntry_ok {s s' : LState} {d : Date}
    {lines : List JournalLineInput} {auto : Bool} {r : JournalEntryResult}
    (h : createJournalEntry s d lines auto = .ok (r, s')) :
    validatePeriodOpen s d = none ∧
    totalDebitOf lines = totalCreditOf lines ∧ totalDebitOf lines ≠ 0 ∧
    validateAccounts s (lines.map (fun l => l.accountId)) = true ∧
    r = ⟨s.nextId, totalDebitOf lines, totalCreditOf lines,
         if auto then .POSTED else .DRAFT⟩ ∧
    s' = { s with
      accounts :=
        if auto then updateAccountBalances s.accounts lines else s.accounts
      entries := s.entries ++ [newEntryOf s d lines auto]
      nextId := s.nextId + 1 } := by
  unfold createJournalEntry at h
  split at h
  · exact absurd h (by simp)
  · rename_i hp
    cases hb : validateEntryBalance lines with
    | error e => rw [hb] at h; exact absurd h (by simp)
    | ok q =>
      rw [hb] at h
      obtain ⟨hq, hbal, hnz⟩ := validateEntryBalance_ok hb
      subst hq
      simp only at h
      split at h
      · rename_i ha
        injection h with h
        injection h with h1 h2
        exact ⟨hp, hbal, hnz, ha, h1.symm, by rw [← h2]; rfl⟩
      · exact absurd h (by simp)

theorem postJournalEntry_ok {s s' : LState} {k : ℕ} {r : JournalEntryResult}
    (h : postJournalEntry s k = .ok (r, s')) :
    ∃ e, s.entries.find? (fun e => e.id = k) = some e ∧
    (e.status = JournalStatus.DRAFT ∨
     e.status = JournalStatus.PENDING_APPROVAL) ∧
    validatePeriodOpen s e.entryDate = none ∧
    r = ⟨e.id, e.totalDebit, e.totalCredit, .POSTED⟩ ∧
    s' = { s with
      entries := s.entries.map (fun e2 =>
        if e2.id = k then { e2 with status := .POSTED } else e2)
      accounts := updateAccountBalances s.accounts (e.lines.map lineToInput) } := by
  unfold postJournalEntry at h
  split at h
  · exact absurd h (by simp)
  · rename_i e hf
    split at h
    · exact absurd h (by simp)
    · rename_i hst
      split at h
      · exact absurd h (by simp)
      · rename_i hperiod
        injection h with h
        injection h with h1 h2
        refine ⟨e, hf, ?_, hperiod, h1.symm, h2.symm⟩
        rcases Decidable.not_and_iff_or_not.mp hst with h' | h'
        · exact Or.inl (not_not.mp h')
        · exact Or.inr (not_not.mp h')

theorem reverseJournalEntry_ok {s s' : LState} {k : ℕ} {d : Date}
    {r : JournalEntryResult}
    (h : reverseJournalEntry s k d = .ok (r, s')) :
    ∃ e s2, s.entries.find? (fun e => e.id = k) = some e ∧
    e.status = JournalStatus.POSTED ∧
    e.isReversed = false ∧
    validatePeriodOpen s d = none ∧
    createJournalEntry
      { s with entries := s.entries.map (fun e2 =>
          if e2.id = k then { e2 with isReversed := true } else e2) }
      d (reversalLinesOf e.lines) true = .ok (r, s2) ∧
    s' = { s2 with entries := s2.entries.map (fun e2 =>
        if e2.id = k then { e2 with reversalEntryId := some r.id } else e2) } := by
  unfold reverseJournalEntry at h
  split at h
  · exact absurd h (by simp)
  · rename_i e hf
    split at h
    · exact absurd h (by simp)
    · rename_i hst
      split at h
      · exact absurd h (by simp)
      · rename_i hrev
        split at h
        · exact absurd h (by simp)
        · rename_i hperiod
          split at h
          · exact absurd h (by simp)
          · rename_i res s2 hcreate
            injection h with h
            injection h with h1 h2
            subst h1
            exact ⟨e, s2, hf, not_not.mp hst,
              Bool.not_eq_true _ ▸ hrev, hperiod, hcreate, h2.symm⟩

/-- `find?` by period key commutes with the key-preserving status update. -/
theorem find?_period_update (l : List ((ℤ × ℤ) × PeriodStatus))
    (q : ℤ × ℤ) (st : PeriodStatus) (p : ℤ × ℤ) :
    (l.map (fun r => if r.1 = q then (r.1, st) else r)).find?
        (fun r => r.1 = p) =
      (l.find? (fun r => r.1 = p)).map
        (fun r => if r.1 = q then (r.1, st) else r) := by
  rw [List.find?_map]
  have hc : ((fun r : (ℤ × ℤ) × PeriodStatus => decide (r.1 = p)) ∘
      fun r => if r.1 = q then (r.1, st) else r) =
      fun r : (ℤ × ℤ) × PeriodStatus => decide (r.1 = p) := by
    funext r
    by_cases hr : r.1 = q <;> simp [Function.comp, hr]
  rw [show (fun r : (ℤ × ℤ) × PeriodStatus => decide (r.1 = p)) ∘
      (fun r => if r.1 = q then (r.1, st) else r) =
      fun r : (ℤ × ℤ) × PeriodStatus => decide (r.1 = p) from hc]

theorem closePeriod_ok {s s' : LState} {y m : ℤ} {ct : CloseKind}
    (h : closePeriod s y m ct = .ok s') :
    unpostedIn s y m = 0 ∧
    s'.accounts = s.accounts ∧ s'.entries = s.entries ∧
    s'.nextId = s.nextId ∧
    ∀ p, periodStatus s' p =
      if p = (y, m) then some (closeStatusOf ct) else periodStatus s p := by
  unfold closePeriod at h
  split at h
  · exact absurd h (by simp)
  · rename_i hu
    split at h
    · rename_i hex
      injection h with h
      subst h
      refine ⟨Nat.eq_zero_of_not_pos hu, rfl, rfl, rfl, fun p => ?_⟩
      simp only [periodStatus]
      rw [find?_period_update]
      by_cases hpm : p = (y, m)
      · rw [if_pos hpm, hpm]
        rcases Option.isSome_iff_exists.mp hex with ⟨row, hrow⟩
        have hrow1 : row.1 = (y, m) := by simpa using List.find?_some hrow
        rw [hrow]
        simp [hrow1]
      · rw [if_neg hpm]
        cases hf : s.periods.find? (fun r => r.1 = p) with
        | none => simp
        | some row =>
          have hrow1 : row.1 = p := by simpa using List.find?_some hf
          have hne : ¬(row.1 = (y, m)) := by rw [hrow1]; exact hpm
          simp [hne]
    · rename_i hex
      injection h with h
      subst h
      refine ⟨Nat.eq_zero_of_not_pos hu, rfl, rfl, rfl, fun p => ?_⟩
      simp only [periodStatus, List.find?_append]
      have hn : s.periods.find? (fun r => r.1 = (y, m)) = none :=
        Option.not_isSome_iff_eq_none.mp (by simpa using hex)
      by_cases hpm : p = (y, m)
      · subst hpm
        rw [hn]
        simp [List.find?_cons]
      · rw [if_neg hpm]
        cases hf : s.periods.find? (fun r => r.1 = p) with
        | none =>
          have hne : ¬((y, m) = p) := fun hc => hpm hc.symm
          simp [List.find?_cons, hne, Option.or]
        | some row => simp [Option.or]

/-! ### Preservation of the invariants -/

theorem balanceChange_not_ref (a : Account) (lines : List JournalLineInput)
    (h : lines.any (fun l => l.accountId = a.id) = false) :
    balanceChange a lines = 0 := by
  have hf : lines.filter (fun l => l.accountId = a.id) = [] := by
    apply List.filter_eq_nil_iff.mpr
    intro l hl
    have := List.any_eq_false.mp h l hl
    simpa using this
  unfold balanceChange lineDebits lineCredits
  rw [hf]
  cases a.normalBalance <;> simp

/-- `updateAccountBalances` acts pointwise as adding the signed delta
(an unreferenced account receives delta zero). -/
theorem updateAccountBalances_eq (accounts : List Account)
    (lines : List JournalLineInput) :
    updateAccountBalances accounts lines = accounts.map (fun a =>
      { a with currentBalance := a.currentBalance + balanceChange a lines }) := by
  unfold updateAccountBalances
  refine List.map_congr_left fun a _ => ?_
  by_cases hr : lines.any (fun l => l.accountId = a.id) = true
  · rw [if_pos hr]
  · rw [if_neg hr]
    rw [balanceChange_not_ref a lines (Bool.not_eq_true _ ▸ hr)]
    simp

theorem postedSum_append (es : List JournalEntry) (e : JournalEntry)
    (nb : BalanceType) (aid : String) :
    postedSum (es ++ [e]) nb aid =
      postedSum es nb aid + entryPostedDelta nb aid e := by
  simp [postedSum]

/-- A map that touches no element with id `k` is the identity. -/
theorem map_if_id_eq_of_not_mem (es : List JournalEntry) (k : ℕ)
    (f : JournalEntry → JournalEntry) (h : ∀ x ∈ es, ¬(x.id = k)) :
    es.map (fun e2 => if e2.id = k then f e2 else e2) = es := by
  induction es with
  | nil => rfl
  | cons x xs ih =>
    simp only [List.map_cons]
    rw [if_neg (h x (List.mem_cons_self x xs)), ih fun y hy => h y (List.mem_cons_of_mem x hy)]

/-- Marking the entry `k` POSTED adds its stored delta to the replayed
history (ids are distinct, and the entry was not POSTED before). -/
theorem postedSum_set_posted (es : List JournalEntry) (k : ℕ)
    (e : JournalEntry) (nb : BalanceType) (aid : String)
    (hnd : (es.map (fun x => x.id)).Nodup)
    (hf : es.find? (fun x => x.id = k) = some e)
    (hst : e.status ≠ JournalStatus.POSTED) :
    postedSum (es.map (fun e2 =>
      if e2.id = k then { e2 with status := .POSTED } else e2)) nb aid =
      postedSum es nb aid + storedDelta nb aid e.lines := by
  induction es with
  | nil => exact absurd hf (by simp)
  | cons x xs ih =>
    rw [List.find?_cons] at hf
    by_cases hx : x.id = k
    · have hdx : decide (x.id = k) = true := by simpa using hx
      simp only [hdx] at hf
      injection hf with hf
      subst hf
      have htail : ∀ y ∈ xs, ¬(y.id = k) := by
        intro y hy hyk
        have hxk : x.id ∈ xs.map (fun x => x.id) := by
          rw [hx, ← hyk]
          exact List.mem_map_of_mem _ hy
        exact (List.nodup_cons.mp hnd).1 hxk
      simp only [List.map_cons, if_pos hx]
      rw [map_if_id_eq_of_not_mem xs k _ htail]
      simp only [postedSum, List.map_cons, List.sum_cons]
      have hold : entryPostedDelta nb aid x = 0 := by
        simp [entryPostedDelta, hst]
      have hnew : entryPostedDelta nb aid { x with status := .POSTED } =
          storedDelta nb aid x.lines := by
        simp [entryPostedDelta]
      rw [hold, hnew]
      ring
    · have hdx : decide (x.id = k) = false := by simpa using hx
      simp only [hdx] at hf
      simp only [List.map_cons, if_neg hx]
      have hnd' := (List.nodup_cons.mp hnd).2
      have := ih hnd' hf
      simp only [postedSum, List.map_cons, List.sum_cons] at this ⊢
      rw [this]
      ring

/-- `postedSum` only reads status and lines. -/
theorem postedSum_map_congr (es : List JournalEntry)
    (f : JournalEntry → JournalEntry) (nb : BalanceType) (aid : String)
    (h : ∀ e ∈ es, (f e).status = e.status ∧ (f e).lines = e.lines) :
    postedSum (es.map f) nb aid = postedSum es nb aid := by
  unfold postedSum
  rw [List.map_map]
  refine congrArg _ (List.map_congr_left fun e he => ?_)
  obtain ⟨h1, h2⟩ := h e he
  simp [entryPostedDelta, Function.comp, h1, h2]

/-- Posting eligibility of an id only reads the account table. -/
theorem accountOk_entries (s : LState) (es : List JournalEntry)
    (aid : String) :
    accountOk { s with entries := es } aid = accountOk s aid := rfl

/-- Balance updates do not change an account's id, active or header flag,
so posting eligibility is unchanged. -/
theorem accountOk_update (s : LState) (lines : List JournalLineInput)
    (aid : String) :
    accountOk { s with accounts := updateAccountBalances s.accounts lines }
      aid = accountOk s aid := by
  unfold accountOk
  simp only [updateAccountBalances_eq, List.any_map]
  rfl

/-- Balance updates keep the list of account ids. -/
theorem updateAccountBalances_ids (accounts : List Account)
    (lines : List JournalLineInput) :
    (updateAccountBalances accounts lines).map (fun a => a.id) =
      accounts.map (fun a => a.id) := by
  rw [updateAccountBalances_eq, List.map_map]
  rfl

/-- The invariants are stable under entry rewrites that keep id, status,
lines and the stored totals (e.g. setting the reversal flag or link). -/
theorem wfState_map_entries (s : LState) (f : JournalEntry → JournalEntry)
    (hpres : ∀ e ∈ s.entries, (f e).id = e.id ∧ (f e).status = e.status ∧
      (f e).lines = e.lines ∧ (f e).totalDebit = e.totalDebit ∧
      (f e).totalCredit = e.totalCredit)
    (h : WFState s) : WFState { s with entries := s.entries.map f } := by
  obtain ⟨hbal, ⟨hnd, hbound⟩, htot, hopen, hand, hacc⟩ := h
  have hids : (s.entries.map f).map (fun e => e.id) =
      s.entries.map (fun e => e.id) := by
    rw [List.map_map]
    exact List.map_congr_left fun e he => (hpres e he).1
  refine ⟨?_, ⟨?_, ?_⟩, ?_, ?_, ?_, ?_⟩
  · intro a ha
    have hps : postedSum (s.entries.map f) a.normalBalance a.id =
        postedSum s.entries a.normalBalance a.id :=
      postedSum_map_congr _ f _ _ fun e he =>
        ⟨(hpres e he).2.1, (hpres e he).2.2.1⟩
    simpa [hps] using hbal a ha
  · simpa [hids] using hnd
  · intro e' he'
    rcases List.mem_map.mp he' with ⟨e, he, rfl⟩
    simpa [(hpres e he).1] using hbound e he
  · intro e' he'
    rcases List.mem_map.mp he' with ⟨e, he, rfl⟩
    obtain ⟨-, -, hl, htd, htc⟩ := hpres e he
    rw [hl, htd, htc]
    exact htot e he
  · exact hopen
  · exact hand
  · intro e' he' l hl
    rcases List.mem_map.mp he' with ⟨e, he, rfl⟩
    rw [(hpres e he).2.2.1] at hl
    rw [accountOk_entries]
    exact hacc e he l hl

theorem wf_create {s s' : LState} {d : Date} {lines : List JournalLineInput}
    {auto : Bool} {r : JournalEntryResult}
    (h : createJournalEntry s d lines auto = .ok (r, s'))
    (hw : WFState s) : WFState s' := by
  obtain ⟨hbal, ⟨hnd, hbound⟩, htot, hopen, hand, haok⟩ := hw
  obtain ⟨hper, hbalL, hnz, hacc, hr, hs'⟩ := createJournalEntry_ok h
  subst hs'
  refine ⟨?_, ⟨?_, ?_⟩, ?_, ?_, ?_, ?_⟩
  · intro a' ha'
    cases auto with
    | false =>
      have ha2 : a' ∈ s.accounts := by simpa using ha'
      show a'.currentBalance = a'.openingBalance +
        postedSum (s.entries ++ [newEntryOf s d lines false])
          a'.normalBalance a'.id
      rw [postedSum_append]
      have hdelta : entryPostedDelta a'.normalBalance a'.id
          (newEntryOf s d lines false) = 0 := by
        simp [entryPostedDelta, newEntryOf]
      rw [hdelta]
      simpa using hbal a' ha2
    | true =>
      have ha2 : a' ∈ updateAccountBalances s.accounts lines := by
        simpa using ha'
      rw [updateAccountBalances_eq] at ha2
      rcases List.mem_map.mp ha2 with ⟨a, ha, rfl⟩
      show a.currentBalance + balanceChange a lines =
        a.openingBalance +
          postedSum (s.entries ++ [newEntryOf s d lines true])
            a.normalBalance a.id
      rw [postedSum_append]
      have hdelta : entryPostedDelta a.normalBalance a.id
          (newEntryOf s d lines true) =
          storedDelta a.normalBalance a.id (lines.map persistLine) := by
        simp [entryPostedDelta, newEntryOf]
      rw [hdelta, ← balanceChange_eq_storedDelta]
      rw [hbal a ha]
      ring
  · simp only [List.map_append]
    rw [List.nodup_append]
    refine ⟨hnd, by simp [newEntryOf], ?_⟩
    intro x hx
    simp only [newEntryOf, List.map_cons, List.map_nil, List.mem_singleton]
    rcases List.mem_map.mp hx with ⟨e, he, rfl⟩
    exact fun hc => absurd (hc ▸ hbound e he) (lt_irrefl _)
  · intro e he
    rcases List.mem_append.mp he with he | he
    · exact Nat.lt_succ_of_lt (hbound e he)
    · rcases List.mem_singleton.mp he with rfl
      exact Nat.lt_succ_self _
  · intro e he
    rcases List.mem_append.mp he with he | he
    · exact htot e he
    · rcases List.mem_singleton.mp he with rfl
      exact ⟨(totalDebitOf_persist lines).symm,
        (totalCreditOf_persist lines).symm, hbalL, hnz⟩
  · exact hopen
  · show ((if auto = true then updateAccountBalances s.accounts lines
      else s.accounts).map (fun a => a.id)).Nodup
    cases auto with
    | false => simpa using hand
    | true =>
      show ((updateAccountBalances s.accounts lines).map (fun a => a.id)).Nodup
      rw [updateAccountBalances_ids]
      exact hand
  · intro e he l hl
    have hok : accountOk s l.accountId = true := by
      rcases List.mem_append.mp he with he | he
      · exact haok e he l hl
      · rcases List.mem_singleton.mp he with rfl
        have hl' : l ∈ lines.map persistLine := hl
        rcases List.mem_map.mp hl' with ⟨li, hli, rfl⟩
        have := List.all_eq_true.mp hacc (persistLine li).accountId
          (by simpa [persistLine] using List.mem_map_of_mem (fun x => x.accountId) hli)
        exact this
    unfold accountOk at hok ⊢
    cases auto with
    | false => simpa using hok
    | true =>
      show ((updateAccountBalances s.accounts lines).any
        (fun a => a.id = l.accountId ∧ a.isActive ∧ ¬a.isHeader)) = true
      rw [updateAccountBalances_eq, List.any_map]
      exact hok

theorem wf_post {s s' : LState} {k : ℕ} {r : JournalEntryResult}
    (h : postJournalEntry s k = .ok (r, s')) (hw : WFState s) : WFState s' := by
  obtain ⟨hbal, ⟨hnd, hbound⟩, htot, hopen, hand, haok⟩ := hw
  obtain ⟨e, hf, hst, hper, hr, hs'⟩ := postJournalEntry_ok h
  subst hs'
  have hstn : e.status ≠ JournalStatus.POSTED := by
    rcases hst with h1 | h1 <;> rw [h1] <;> intro hc <;> cases hc
  refine ⟨?_, ⟨?_, ?_⟩, ?_, ?_, ?_, ?_⟩
  · intro a' ha'
    simp only at ha' ⊢
    rw [updateAccountBalances_eq] at ha'
    rcases List.mem_map.mp ha' with ⟨a, ha, rfl⟩
    simp only
    rw [postedSum_set_posted s.entries k e a.normalBalance a.id hnd hf hstn]
    rw [balanceChange_lineToInput]
    have := hbal a ha
    rw [this]
    ring
  · have hids : (s.entries.map (fun e2 =>
        if e2.id = k then { e2 with status := .POSTED } else e2)).map
          (fun e => e.id) = s.entries.map (fun e => e.id) := by
      rw [List.map_map]
      refine List.map_congr_left fun e2 _ => ?_
      by_cases he2 : e2.id = k <;> simp [he2]
    simpa [hids] using hnd
  · intro e' he'
    rcases List.mem_map.mp he' with ⟨e2, he2, rfl⟩
    by_cases hk : e2.id = k
    · simpa [hk] using hbound e2 he2
    · simpa [hk] using hbound e2 he2
  · intro e' he'
    rcases List.mem_map.mp he' with ⟨e2, he2, rfl⟩
    by_cases hk : e2.id = k
    · simpa [hk] using htot e2 he2
    · simpa [hk] using htot e2 he2
  · exact hopen
  · show ((updateAccountBalances s.accounts (e.lines.map lineToInput)).map
      (fun a => a.id)).Nodup
    rw [updateAccountBalances_ids]
    exact hand
  · intro e' he' l hl
    have hlsame : ∀ e2 : JournalEntry,
        ((if e2.id = k then { e2 with status := JournalStatus.POSTED }
          else e2) : JournalEntry).lines = e2.lines := by
      intro e2
      by_cases hk : e2.id = k <;> simp [hk]
    rcases List.mem_map.mp he' with ⟨e2, he2, rfl⟩
    rw [hlsame e2] at hl
    have hok := haok e2 he2 l hl
    unfold accountOk at hok ⊢
    simp only [updateAccountBalances_eq, List.any_map]
    exact hok

theorem wf_reverse {s s' : LState} {k : ℕ} {d : Date}
    {r : JournalEntryResult}
    (h : reverseJournalEntry s k d = .ok (r, s')) (hw : WFState s) :
    WFState s' := by
  obtain ⟨e, s2, hf, hst, hrev, hper, hcreate, hs'⟩ := reverseJournalEntry_ok h
  subst hs'
  have hw1 : WFState { s with entries := s.entries.map (fun e2 =>
      if e2.id = k then { e2 with isReversed := true } else e2) } := by
    refine wfState_map_entries s _ (fun e2 _ => ?_) hw
    by_cases hk : e2.id = k <;> simp [hk]
  have hw2 : WFState s2 := wf_create hcreate hw1
  refine wfState_map_entries s2 _ (fun e2 _ => ?_) hw2
  by_cases hk : e2.id = k <;> simp [hk]

theorem wf_close {s s' : LState} {y m : ℤ} {ct : CloseKind}
    (h : closePeriod s y m ct = .ok s') (hw : WFState s) : WFState s' := by
  obtain ⟨hbal, ⟨hnd, hbound⟩, htot, hopen, hand, haok⟩ := hw
  obtain ⟨-, hacc, hent, hnext, hps⟩ := closePeriod_ok h
  refine ⟨?_, ⟨?_, ?_⟩, ?_, ?_, ?_, ?_⟩
  · intro a ha
    rw [hacc] at ha
    have := hbal a ha
    unfold BalancesCached at *
    rw [hent]
    exact this
  · rw [hent]; exact hnd
  · intro e he
    rw [hent] at he
    rw [hnext]
    exact hbound e he
  · intro e he
    rw [hent] at he
    exact htot e he
  · intro p st hp
    rw [hps p] at hp
    by_cases hpm : p = (y, m)
    · rw [if_pos hpm] at hp
      injection hp with hp
      subst hp
      cases ct <;> simp [closeStatusOf]
    · rw [if_neg hpm] at hp
      exact hopen p st hp
  · rw [hacc]
    exact hand
  · intro e he l hl
    rw [hent] at he
    have hok := haok e he l hl
    unfold accountOk at hok ⊢
    rw [hacc]
    exact hok

/-- Every reachable state satisfies all the invariants. -/
theorem reachable_wf {s : LState} (h : Reachable s) : WFState s := by
  induction h with
  | init accounts h hnodup =>
    refine ⟨?_, ⟨?_, ?_⟩, ?_, ?_, ?_, ?_⟩
    · intro a ha
      simpa [postedSum] using h a ha
    · simp
    · intro e he
      simp at he
    · intro e he
      simp at he
    · intro p st hp
      simp [periodStatus] at hp
    · exact hnodup
    · intro e he
      simp at he
  | create _ h ih => exact wf_create h ih
  | post _ h ih => exact wf_post h ih
  | reverse _ h ih => exact wf_reverse h ih
  | close _ h ih => exact wf_close h ih

/-! ### The projector's balance as a sum over posted entries -/

theorem accountBalanceValue_balance (s : LState) (a : Account)
    (asOfDate : Option Date) :
    (accountBalanceValue s a asOfDate).balance = a.openingBalance +
      ((s.entries.filter (fun e => e.status = JournalStatus.POSTED ∧
          withinAsOf asOfDate e.entryDate)).map
        (fun e => storedDelta a.normalBalance a.id e.lines)).sum := by
  unfold accountBalanceValue postedLinesFor
  have hD : ∀ f : JournalLine → ℚ,
      ((((s.entries.filter (fun e => e.status = JournalStatus.POSTED ∧
          withinAsOf asOfDate e.entryDate)).map
        (fun e => e.lines.filter (fun l => l.accountId = a.id))).flatten.map
          f).sum) =
      ((s.entries.filter (fun e => e.status = JournalStatus.POSTED ∧
          withinAsOf asOfDate e.entryDate)).map
        (fun e => ((e.lines.filter (fun l => l.accountId = a.id)).map f).sum)).sum := by
    intro f
    rw [List.map_flatten, List.sum_flatten, List.map_map, List.map_map]
    rfl
  simp only
  rw [hD, hD]
  cases hnb : a.normalBalance <;>
    simp only [storedDelta, storedDebits, storedCredits, hnb] <;>
    rw [sum_map_sub] <;> ring

theorem accountBalanceValue_none (s : LState) (a : Account) :
    (accountBalanceValue s a none).balance =
      a.openingBalance + postedSum s.entries a.normalBalance a.id := by
  rw [accountBalanceValue_balance]
  congr 1
  have hfe : (s.entries.filter (fun e => e.status = JournalStatus.POSTED ∧
      withinAsOf none e.entryDate)) =
      s.entries.filter (fun e => e.status = JournalStatus.POSTED) := by
    refine List.filter_congr fun e _ => ?_
    simp [withinAsOf]
  rw [hfe, sum_map_filter_eq]
  unfold postedSum
  refine congrArg _ (List.map_congr_left fun e _ => ?_)
  by_cases he : e.status = JournalStatus.POSTED <;>
    simp [entryPostedDelta, he]

/-! ### A small concrete ledger used by witnesses -/

/-- A debit-normal cash account. -/
def demoCash : Account := ⟨"cash", "1100", BalanceType.DEBIT, true, false, 0, 0⟩

/-- A credit-normal income account. -/
def demoIncome : Account := ⟨"inc", "4100", BalanceType.CREDIT, true, false, 0, 0⟩

/-- Freshly seeded state: two accounts, no entries, no period rows. -/
def demoInit : LState := ⟨[demoCash, demoIncome], [], [], 0⟩

/-- Lines of a balanced entry: debit cash 100, credit income 100. -/
def demoLines : List JournalLineInput :=
  [⟨"cash", some 100, none⟩, ⟨"inc", none, some 100⟩]

/-- The state after auto-posting the demo entry dated 2025-01-10. -/
def demoPosted : LState :=
  { accounts :=
      [{ demoCash with currentBalance := 100 },
       { demoIncome with currentBalance := 100 }]
    entries :=
      [{ id := 0
         entryDate := ⟨2025, 1, 10⟩
         status := JournalStatus.POSTED
         isReversed := false
         reversalEntryId := none
         lines := [⟨"cash", 100, 0⟩, ⟨"inc", 0, 100⟩]
         totalDebit := 100
         totalCredit := 100 }]
    periods := []
    nextId := 1 }

theorem demoPosted_create :
    createJournalEntry demoInit ⟨2025, 1, 10⟩ demoLines true =
      .ok (⟨0, 100, 100, JournalStatus.POSTED⟩, demoPosted) := by
  simp +decide only [createJournalEntry, validatePeriodOpen, periodStatus,
    getFinancialPeriod, validateEntryBalance, totalDebitOf, totalCreditOf,
    posAmount, validateAccounts, accountOk, updateAccountBalances,
    balanceChange, lineDebits, lineCredits, numOrZero, persistLine,
    newEntryOf, demoInit, demoLines, demoCash, demoIncome, demoPosted,
    List.filter_cons, List.filter_nil, List.map_cons, List.map_nil,
    List.sum_cons, List.sum_nil, List.any_cons, List.any_nil,
    List.all_cons, List.all_nil, List.find?_cons, List.find?_nil]
  norm_num

theorem demoPosted_reachable : Reachable demoPosted :=
  Reachable.create (Reachable.init _ (by decide) (by decide)) demoPosted_create

/-! ## C1: getAccountBalance versus the cached running balance -/

/-- **C1** (counterexample to the claim as stated): in the reachable state
`demoPosted` — one POSTED entry dated 2025-01-10 — the balance
`getAccountBalance` reconstructs for the cash account *up to the given
date* 2025-01-05 is `0`, while the cached running balance maintained by
`updateAccountBalances` is `100`: with a date bound that excludes a posted
line, the dated replay does not equal the cache. -/
theorem claim1_asof_counterexample :
    (getAccountBalance demoPosted "cash" (some ⟨2025, 1, 5⟩)).map
        (fun b => b.balance) = .ok 0 ∧
    accountById demoPosted "cash" =
      some { demoCash with currentBalance := 100 } ∧
    ({ demoCash with currentBalance := 100 } : Account).currentBalance = 100 ∧
    (0 : ℚ) ≠ 100 := by
  refine ⟨?_, by decide, rfl, by norm_num⟩
  simp +decide only [getAccountBalance, accountById, accountBalanceValue,
    postedLinesFor, withinAsOf, dateLE, demoPosted, demoCash,
    List.filter_cons, List.filter_nil, List.map_cons, List.map_nil,
    List.sum_cons, List.sum_nil, List.find?_cons, List.find?_nil,
    List.flatten_cons, List.flatten_nil, Except.map]
  norm_num

/-- **C1** (amended): for every reachable ledger state and every account,
the balance returned by `getAccountBalance` with no date bound — the
account's opening balance plus the signed sum, per the normal-balance
rule, of all POSTED journal lines for that account — equals the cached
running balance maintained incrementally by `updateAccountBalances`.
(The equivalence with a date bound holds only when no posted line is dated
after the bound, per `claim1_asof_counterexample`.) -/
theorem claim1_cached_equals_replay {s : LState} (hs : Reachable s)
    {aid : String} {a : Account} (ha : accountById s aid = some a) :
    (getAccountBalance s aid none).map (fun b => b.balance) =
      .ok a.currentBalance := by
  obtain ⟨hbal, -, -, -, -⟩ := reachable_wf hs
  have hmem : a ∈ s.accounts := List.mem_of_find?_eq_some ha
  unfold getAccountBalance
  rw [ha]
  simp only [Except.map]
  rw [accountBalanceValue_none, ← hbal a hmem]

/-- Witness for `claim1_cached_equals_replay` at the concrete reachable
state `demoPosted` and its cash account. -/
theorem claim1_cached_equals_replay_witness :
    (getAccountBalance demoPosted "cash" none).map (fun b => b.balance) =
      .ok ({ demoCash with currentBalance := 100 } : Account).currentBalance :=
  claim1_cached_equals_replay demoPosted_reachable (by decide)

/-! ## C7: one-way period state machine -/

/-- The demo state after hard-closing 2025-01. -/
def demoHard : LState :=
  { demoInit with periods := [((2025, 1), PeriodStatus.HARD_CLOSE)] }

/-- The demo state after subsequently soft-closing 2025-01 again. -/
def demoSoft : LState :=
  { demoInit with periods := [((2025, 1), PeriodStatus.SOFT_CLOSE)] }

theorem demoHard_close : closePeriod demoInit 2025 1 CloseKind.HARD = .ok demoHard := rfl

theorem demoHard_reachable : Reachable demoHard :=
  Reachable.close (Reachable.init _ (by decide) (by decide)) demoHard_close

/-- **C7** (counterexample to strict one-way transitions): after
`closePeriod 2025 1 HARD` the period is HARD_CLOSE, yet a later
`closePeriod 2025 1 SOFT` succeeds and sets it back to SOFT_CLOSE — the
upsert overwrites the status unconditionally. -/
theorem claim7_downgrade_counterexample :
    closePeriod demoInit 2025 1 CloseKind.HARD = .ok demoHard ∧
    periodStatus demoHard (2025, 1) = some PeriodStatus.HARD_CLOSE ∧
    closePeriod demoHard 2025 1 CloseKind.SOFT = .ok demoSoft ∧
    periodStatus demoSoft (2025, 1) = some PeriodStatus.SOFT_CLOSE ∧
    PeriodStatus.SOFT_CLOSE ≠ PeriodStatus.HARD_CLOSE := by
  refine ⟨rfl, rfl, rfl, rfl, by decide⟩

/-- **C7** (amended): no operation ever returns a period to OPEN — in
every reachable state a period row's status is SOFT_CLOSE or HARD_CLOSE —
but the transitions are not strictly one-way: `closePeriod` overwrites the
row with exactly the requested status (`closeStatusOf`), regardless of the
previous status, so a HARD_CLOSE period can be downgraded to SOFT_CLOSE. -/
theorem claim7_no_reopen :
    (∀ s : LState, Reachable s → ∀ p st, periodStatus s p = some st →
      st ≠ PeriodStatus.OPEN) ∧
    (∀ (s s' : LState) (y m : ℤ) (ct : CloseKind),
      closePeriod s y m ct = .ok s' →
      periodStatus s' (y, m) = some (closeStatusOf ct) ∧
      ∀ p, p ≠ (y, m) → periodStatus s' p = periodStatus s p) := by
  constructor
  · intro s hs p st hp
    obtain ⟨-, -, -, hopen, -⟩ := reachable_wf hs
    exact hopen p st hp
  · intro s s' y m ct h
    obtain ⟨-, -, -, -, hps⟩ := closePeriod_ok h
    refine ⟨?_, ?_⟩
    · rw [hps (y, m), if_pos rfl]
    · intro p hp
      rw [hps p, if_neg hp]

/-- Witness for `claim7_no_reopen` at the concrete reachable state
`demoHard` and the concrete close call of `demoHard_close`. -/
theorem claim7_no_reopen_witness :
    PeriodStatus.HARD_CLOSE ≠ PeriodStatus.OPEN ∧
    periodStatus demoHard (2025, 1) = some (closeStatusOf CloseKind.HARD) :=
  ⟨claim7_no_reopen.1 demoHard demoHard_reachable (2025, 1)
      PeriodStatus.HARD_CLOSE rfl,
    (claim7_no_reopen.2 demoInit demoHard 2025 1 CloseKind.HARD
      demoHard_close).1⟩

/-! ## C5: hard-closed periods reject creation and posting -/

/-- **C5**: when the (year, month) period of the entry date is HARD_CLOSE,
`createJournalEntry` fails with `PERIOD_CLOSED` naming that period before
persisting anything (period validation precedes the transaction); and
`postJournalEntry` on a DRAFT or PENDING_APPROVAL entry re-checks the
entry-date's period at posting time and fails with `PERIOD_CLOSED` if it
is HARD_CLOSE by then, leaving the entry unposted and balances unchanged
(an error result carries no state change). -/
theorem claim5_period_closed :
    (∀ (s : LState) (d : Date) (lines : List JournalLineInput) (auto : Bool),
      periodStatus s (getFinancialPeriod d) = some PeriodStatus.HARD_CLOSE →
      createJournalEntry s d lines auto =
        .error (.periodClosed (getFinancialPeriod d))) ∧
    (∀ (s : LState) (k : ℕ) (e : JournalEntry),
      s.entries.find? (fun x => x.id = k) = some e →
      (e.status = JournalStatus.DRAFT ∨
       e.status = JournalStatus.PENDING_APPROVAL) →
      periodStatus s (getFinancialPeriod e.entryDate) =
        some PeriodStatus.HARD_CLOSE →
      postJournalEntry s k =
        .error (.periodClosed (getFinancialPeriod e.entryDate))) := by
  constructor
  · intro s d lines auto hp
    have hv : validatePeriodOpen s d =
        some (.periodClosed (getFinancialPeriod d)) := by
      unfold validatePeriodOpen
      rw [hp]
    unfold createJournalEntry
    rw [hv]
  · intro s k e hf hst hp
    have hv : validatePeriodOpen s e.entryDate =
        some (.periodClosed (getFinancialPeriod e.entryDate)) := by
      unfold validatePeriodOpen
      rw [hp]
    rcases hst with h1 | h1 <;>
      simp [postJournalEntry, hf, h1, hv]

/-- A hand-built state with a DRAFT entry dated inside a hard-closed
period (the period table can be in this configuration at posting time). -/
def demoDraftClosed : LState :=
  { accounts := [demoCash, demoIncome]
    entries :=
      [{ id := 0
         entryDate := ⟨2025, 1, 10⟩
         status := JournalStatus.DRAFT
         isReversed := false
         reversalEntryId := none
         lines := [⟨"cash", 100, 0⟩, ⟨"inc", 0, 100⟩]
         totalDebit := 100
         totalCredit := 100 }]
    periods := [((2025, 1), PeriodStatus.HARD_CLOSE)]
    nextId := 1 }

/-- Witness for `claim5_period_closed`: a create into the hard-closed
2025-01 fails with `PERIOD_CLOSED`, and posting the draft entry of
`demoDraftClosed` (dated 2025-01-10) fails the same way. -/
theorem claim5_period_closed_witness :
    createJournalEntry demoHard ⟨2025, 1, 15⟩ demoLines true =
      .error (.periodClosed (2025, 1)) ∧
    postJournalEntry demoDraftClosed 0 =
      .error (.periodClosed (2025, 1)) :=
  ⟨claim5_period_closed.1 demoHard ⟨2025, 1, 15⟩ demoLines true rfl,
   claim5_period_closed.2 demoDraftClosed 0 _ rfl (Or.inl rfl) rfl⟩

/-! ## C3: unbalanced and zero-value entries are rejected with details -/

/-- **C3**: for every line list submitted to `createJournalEntry` (with
the entry date's period not hard-closed, which is checked first): if the
debit total differs from the credit total the call fails with
`UNBALANCED_ENTRY` carrying both totals; if the totals are equal but zero
it fails with the zero-value `AccountingError`.  In either case the error
result carries no state: nothing is persisted (all validation precedes the
write transaction). -/
theorem claim3_unbalanced_or_zero :
    ∀ (s : LState) (d : Date) (lines : List JournalLineInput) (auto : Bool),
      validatePeriodOpen s d = none →
      (totalDebitOf lines ≠ totalCreditOf lines →
        createJournalEntry s d lines auto =
          .error (.unbalanced (totalDebitOf lines) (totalCreditOf lines))) ∧
      (totalDebitOf lines = totalCreditOf lines → totalDebitOf lines = 0 →
        createJournalEntry s d lines auto = .error .zeroValue) := by
  intro s d lines auto hper
  constructor
  · intro hne
    unfold createJournalEntry
    rw [hper]
    have hv : validateEntryBalance lines =
        .error (.unbalanced (totalDebitOf lines) (totalCreditOf lines)) := by
      unfold validateEntryBalance
      rw [if_pos hne]
    rw [hv]
  · intro heq hz
    unfold createJournalEntry
    rw [hper]
    have hv : validateEntryBalance lines = .error .zeroValue := by
      unfold validateEntryBalance
      rw [if_neg (not_not.mpr heq), if_pos hz]
    rw [hv]

/-- Witness for `claim3_unbalanced_or_zero`: debit 5 against credit 3
reports `unbalanced 5 3`; two zero-amount lines report the zero-value
error. -/
theorem claim3_unbalanced_or_zero_witness :
    createJournalEntry demoInit ⟨2025, 3, 1⟩
      [⟨"cash", some 5, none⟩, ⟨"inc", none, some 3⟩] true =
      .error (.unbalanced 5 3) ∧
    createJournalEntry demoInit ⟨2025, 3, 1⟩
      [⟨"cash", some 0, none⟩, ⟨"inc", none, some 0⟩] true =
      .error .zeroValue := by
  have h5 : totalDebitOf [⟨"cash", some 5, none⟩, ⟨"inc", none, some 3⟩] = 5 := by
    simp [totalDebitOf, posAmount]
  have h3 : totalCreditOf [⟨"cash", some 5, none⟩, ⟨"inc", none, some 3⟩] = 3 := by
    simp [totalCreditOf, posAmount]
  have hz : totalDebitOf [⟨"cash", some 0, none⟩, ⟨"inc", none, some 0⟩] = 0 := by
    simp [totalDebitOf, posAmount]
  have hz' : totalCreditOf [⟨"cash", some 0, none⟩, ⟨"inc", none, some 0⟩] = 0 := by
    simp [totalCreditOf, posAmount]
  constructor
  · have := (claim3_unbalanced_or_zero demoInit ⟨2025, 3, 1⟩
      [⟨"cash", some 5, none⟩, ⟨"inc", none, some 3⟩] true rfl).1
      (by rw [h5, h3]; norm_num)
    rwa [h5, h3] at this
  · exact (claim3_unbalanced_or_zero demoInit ⟨2025, 3, 1⟩
      [⟨"cash", some 0, none⟩, ⟨"inc", none, some 0⟩] true rfl).2
      (by rw [hz, hz']) hz

/-! ## C2: reversal mirrors the lines and cancels the balance effect -/

/-- A persisted line with debit and credit swapped. -/
def swapLine (l : JournalLine) : JournalLine :=
  ⟨l.accountId, l.creditAmount, l.debitAmount⟩

theorem reversalLines_persist (ls : List JournalLine) :
    (reversalLinesOf ls).map persistLine = ls.map swapLine := by
  unfold reversalLinesOf
  rw [List.map_map]
  exact List.map_congr_left fun l _ => by
    simp [persistLine, swapLine, numOrZero_some, Function.comp]

theorem storedDebits_swap (ls : List JournalLine) (aid : String) :
    storedDebits (ls.map swapLine) aid = storedCredits ls aid := by
  unfold storedDebits storedCredits
  rw [List.filter_map, List.map_map]
  rfl

theorem storedCredits_swap (ls : List JournalLine) (aid : String) :
    storedCredits (ls.map swapLine) aid = storedDebits ls aid := by
  unfold storedDebits storedCredits
  rw [List.filter_map, List.map_map]
  rfl

/-- The combined signed effect of a line list and its swapped mirror is
zero on every account. -/
theorem storedDelta_swap (nb : BalanceType) (aid : String)
    (ls : List JournalLine) :
    storedDelta nb aid (ls.map swapLine) = -storedDelta nb aid ls := by
  cases nb <;>
    simp only [storedDelta, storedDebits_swap, storedCredits_swap] <;> ring

theorem totalDebitOf_reversal (ls : List JournalLine) :
    totalDebitOf (reversalLinesOf ls) = storedPosCredit ls := by
  unfold totalDebitOf reversalLinesOf storedPosCredit
  rw [List.map_map]
  rfl

theorem totalCreditOf_reversal (ls : List JournalLine) :
    totalCreditOf (reversalLinesOf ls) = storedPosDebit ls := by
  unfold totalCreditOf reversalLinesOf storedPosDebit
  rw [List.map_map]
  rfl

/-- Forward evaluation of `createJournalEntry` when every validation
passes. -/
theorem createJournalEntry_succeeds (s : LState) (d : Date)
    (lines : List JournalLineInput) (auto : Bool)
    (hper : validatePeriodOpen s d = none)
    (hbal : totalDebitOf lines = totalCreditOf lines)
    (hnz : totalDebitOf lines ≠ 0)
    (hacc : validateAccounts s (lines.map (fun l => l.accountId)) = true) :
    createJournalEntry s d lines auto = .ok
      (⟨s.nextId, totalDebitOf lines, totalCreditOf lines,
        if auto then .POSTED else .DRAFT⟩,
       { s with
         accounts :=
           if auto then updateAccountBalances s.accounts lines
           else s.accounts
         entries := s.entries ++ [newEntryOf s d lines auto]
         nextId := s.nextId + 1 }) := by
  have hv : validateEntryBalance lines =
      .ok (totalDebitOf lines, totalCreditOf lines) := by
    unfold validateEntryBalance
    rw [if_neg (not_not.mpr hbal), if_neg hnz]
  simp only [createJournalEntry, hper, hv, hacc]
  rfl

/-- **C2**: for every POSTED, not-yet-reversed entry in a reachable state
(with the effective date's period open and the entry's accounts still
postable), `reverseJournalEntry` succeeds and auto-posts a mirror entry
whose lines are exactly the original's lines with debit and credit swapped
per line; the signed effect of the original lines plus the mirror lines is
zero on every account, and every cached balance moves by exactly minus the
original entry's effect. -/
theorem claim2_reversal_mirror {s : LState} (hs : Reachable s) {k : ℕ}
    {e : JournalEntry} (hf : s.entries.find? (fun x => x.id = k) = some e)
    (hst : e.status = JournalStatus.POSTED) (hrev : e.isReversed = false)
    {d : Date} (hper : validatePeriodOpen s d = none)
    (hacc : validateAccounts s (e.lines.map (fun l => l.accountId)) = true) :
    ∃ r s', reverseJournalEntry s k d = .ok (r, s') ∧
      r.status = JournalStatus.POSTED ∧
      (∃ rev, rev ∈ s'.entries ∧ rev.id = r.id ∧
        rev.status = JournalStatus.POSTED ∧
        rev.lines = e.lines.map swapLine) ∧
      (∀ nb aid, storedDelta nb aid (e.lines.map swapLine) +
        storedDelta nb aid e.lines = 0) ∧
      (∀ a ∈ s.accounts, ∃ a', a' ∈ s'.accounts ∧ a'.id = a.id ∧
        a'.currentBalance =
          a.currentBalance - storedDelta a.normalBalance a.id e.lines) := by
  obtain ⟨-, ⟨hndIds, hbound⟩, htot, -, -, -⟩ := reachable_wf hs
  have hmem : e ∈ s.entries := List.mem_of_find?_eq_some hf
  have hek : e.id = k := by simpa using List.find?_some hf
  obtain ⟨htd, htc, hdc, hnz0⟩ := htot e hmem
  have hbal1 : totalDebitOf (reversalLinesOf e.lines) =
      totalCreditOf (reversalLinesOf e.lines) := by
    rw [totalDebitOf_reversal, totalCreditOf_reversal, ← htd, ← htc, hdc]
  have hnz1 : totalDebitOf (reversalLinesOf e.lines) ≠ 0 := by
    rw [totalDebitOf_reversal, ← htc, ← hdc]
    exact hnz0
  have hacc1 : validateAccounts
      { s with entries := s.entries.map (fun e2 =>
          if e2.id = k then { e2 with isReversed := true } else e2) }
      ((reversalLinesOf e.lines).map (fun l => l.accountId)) = true := by
    have hids : (reversalLinesOf e.lines).map (fun l => l.accountId) =
        e.lines.map (fun l => l.accountId) := by
      unfold reversalLinesOf
      rw [List.map_map]
      rfl
    rw [hids]
    exact hacc
  have hcr := createJournalEntry_succeeds
    { s with entries := s.entries.map (fun e2 =>
        if e2.id = k then { e2 with isReversed := true } else e2) }
    d (reversalLinesOf e.lines) true hper hbal1 hnz1 hacc1
  have hneq : ¬(e.status ≠ JournalStatus.POSTED) := by
    rw [hst]
    exact not_not_intro rfl
  have hneq2 : ¬(e.isReversed = true) := by
    rw [hrev]
    exact Bool.false_ne_true
  refine ⟨⟨s.nextId, totalDebitOf (reversalLinesOf e.lines),
      totalCreditOf (reversalLinesOf e.lines), JournalStatus.POSTED⟩,
    { accounts := updateAccountBalances s.accounts (reversalLinesOf e.lines)
      entries := (s.entries.map (fun e2 =>
          if e2.id = k then { e2 with isReversed := true } else e2) ++
        [newEntryOf { s with entries := s.entries.map (fun e2 =>
            if e2.id = k then { e2 with isReversed := true } else e2) }
          d (reversalLinesOf e.lines) true]).map
        (fun e2 =>
          if e2.id = k then { e2 with reversalEntryId := some s.nextId }
          else e2)
      periods := s.periods
      nextId := s.nextId + 1 }, ?_, ?_, ?_, ?_, ?_⟩
  · simp only [reverseJournalEntry, hf, if_neg hneq, if_neg hneq2, hper, hcr]
    exact rfl
  · rfl
  · refine ⟨newEntryOf
      { s with entries := s.entries.map (fun e2 =>
          if e2.id = k then { e2 with isReversed := true } else e2) }
      d (reversalLinesOf e.lines) true, ?_, rfl, rfl, ?_⟩
    · show _ ∈ (_ ++ [_]).map _
      have hkid : ¬((newEntryOf
          { s with entries := s.entries.map (fun e2 =>
              if e2.id = k then { e2 with isReversed := true } else e2) }
          d (reversalLinesOf e.lines) true).id = k) := by
        show ¬(s.nextId = k)
        rw [← hek]
        exact fun hc => absurd (hc ▸ hbound e hmem) (lt_irrefl _)
      have hmm : (newEntryOf
          { s with entries := s.entries.map (fun e2 =>
              if e2.id = k then { e2 with isReversed := true } else e2) }
          d (reversalLinesOf e.lines) true) ∈
          (s.entries.map (fun e2 =>
            if e2.id = k then { e2 with isReversed := true } else e2) ++
           [newEntryOf
            { s with entries := s.entries.map (fun e2 =>
                if e2.id = k then { e2 with isReversed := true } else e2) }
            d (reversalLinesOf e.lines) true]) :=
        List.mem_append_right _ (List.mem_singleton_self _)
      exact List.mem_map.mpr ⟨_, hmm, if_neg hkid⟩
    · show (reversalLinesOf e.lines).map persistLine = e.lines.map swapLine
      exact reversalLines_persist e.lines
  · intro nb aid
    rw [storedDelta_swap]
    ring
  · intro a ha
    refine ⟨{ a with currentBalance :=
        a.currentBalance + balanceChange a (reversalLinesOf e.lines) },
      ?_, rfl, ?_⟩
    · show _ ∈ updateAccountBalances s.accounts (reversalLinesOf e.lines)
      rw [updateAccountBalances_eq]
      exact List.mem_map_of_mem _ ha
    · show a.currentBalance + balanceChange a (reversalLinesOf e.lines) =
        a.currentBalance - storedDelta a.normalBalance a.id e.lines
      rw [balanceChange_eq_storedDelta, reversalLines_persist,
        storedDelta_swap]
      ring

/-- Witness for `claim2_reversal_mirror` at the posted demo entry. -/
theorem claim2_reversal_mirror_witness :
    ∃ r s', reverseJournalEntry demoPosted 0 ⟨2025, 2, 1⟩ = .ok (r, s') ∧
      r.status = JournalStatus.POSTED ∧
      (∃ rev, rev ∈ s'.entries ∧ rev.id = r.id ∧
        rev.status = JournalStatus.POSTED ∧
        rev.lines = [(⟨"cash", 100, 0⟩ : JournalLine),
          ⟨"inc", 0, 100⟩].map swapLine) ∧
      (∀ nb aid, storedDelta nb aid
          ([(⟨"cash", 100, 0⟩ : JournalLine), ⟨"inc", 0, 100⟩].map swapLine) +
        storedDelta nb aid [(⟨"cash", 100, 0⟩ : JournalLine), ⟨"inc", 0, 100⟩]
          = 0) ∧
      (∀ a ∈ demoPosted.accounts, ∃ a', a' ∈ s'.accounts ∧ a'.id = a.id ∧
        a'.currentBalance = a.currentBalance -
          storedDelta a.normalBalance a.id
            [(⟨"cash", 100, 0⟩ : JournalLine), ⟨"inc", 0, 100⟩]) :=
  claim2_reversal_mirror demoPosted_reachable
    (e := ⟨0, ⟨2025, 1, 10⟩, JournalStatus.POSTED, false, none,
      [⟨"cash", 100, 0⟩, ⟨"inc", 0, 100⟩], 100, 100⟩)
    (by decide) rfl rfl (d := ⟨2025, 2, 1⟩) rfl (by decide)

/-! ## C8: per-line debit/credit exclusivity is not enforced -/

/-- A single line carrying both a nonzero debit and a nonzero credit. -/
def bothSidesLines : List JournalLineInput := [⟨"cash", some 5, some 5⟩]

/-- The state after `createJournalEntry` accepts `bothSidesLines`
(the cash delta is 5 − 5 = 0, so balances are unchanged). -/
def demoBoth : LState :=
  { accounts := [demoCash, demoIncome]
    entries :=
      [{ id := 0
         entryDate := ⟨2025, 1, 10⟩
         status := JournalStatus.POSTED
         isReversed := false
         reversalEntryId := none
         lines := [⟨"cash", 5, 5⟩]
         totalDebit := 5
         totalCredit := 5 }]
    periods := []
    nextId := 1 }

theorem demoBoth_create :
    createJournalEntry demoInit ⟨2025, 1, 10⟩ bothSidesLines true =
      .ok (⟨0, 5, 5, JournalStatus.POSTED⟩, demoBoth) := by
  simp +decide only [createJournalEntry, validatePeriodOpen, periodStatus,
    getFinancialPeriod, validateEntryBalance, totalDebitOf, totalCreditOf,
    posAmount, validateAccounts, accountOk, updateAccountBalances,
    balanceChange, lineDebits, lineCredits, numOrZero, persistLine,
    newEntryOf, demoInit, bothSidesLines, demoCash, demoIncome, demoBoth,
    List.filter_cons, List.filter_nil, List.map_cons, List.map_nil,
    List.sum_cons, List.sum_nil, List.any_cons, List.any_nil,
    List.all_cons, List.all_nil, List.find?_cons, List.find?_nil]
  norm_num

/-- **C8** (counterexample): `createJournalEntry` accepts a single line
with `debitAmount = 5` and `creditAmount = 5` — the totals balance and are
nonzero, no per-line check exists — and persists that line with both
amounts nonzero. -/
theorem claim8_both_nonzero_counterexample :
    createJournalEntry demoInit ⟨2025, 1, 10⟩ bothSidesLines true =
      .ok (⟨0, 5, 5, JournalStatus.POSTED⟩, demoBoth) ∧
    (demoBoth.entries.map (fun e => e.lines)).flatten =
      [⟨"cash", 5, 5⟩] ∧
    (5 : ℚ) ≠ 0 :=
  ⟨demoBoth_create, rfl, by norm_num⟩

/-- **C8** (amended): `createJournalEntry` enforces only entry-level
validation — the positive-debit total equals the positive-credit total and
is nonzero — and persists every accepted line with its amounts exactly as
given (defaulted to 0); it never rejects a line for carrying both a debit
and a credit amount. -/
theorem claim8_entry_level_validation :
    ∀ (s s' : LState) (d : Date) (lines : List JournalLineInput)
      (auto : Bool) (r : JournalEntryResult),
      createJournalEntry s d lines auto = .ok (r, s') →
      s'.entries = s.entries ++ [newEntryOf s d lines auto] ∧
      totalDebitOf lines = totalCreditOf lines ∧
      totalDebitOf lines ≠ 0 := by
  intro s s' d lines auto r h
  obtain ⟨-, hbal, hnz, -, -, hs'⟩ := createJournalEntry_ok h
  subst hs'
  exact ⟨rfl, hbal, hnz⟩

/-- Witness for `claim8_entry_level_validation` at the accepted
both-sides line of `demoBoth_create`. -/
theorem claim8_entry_level_validation_witness :
    demoBoth.entries =
      demoInit.entries ++ [newEntryOf demoInit ⟨2025, 1, 10⟩ bothSidesLines true] ∧
    totalDebitOf bothSidesLines = totalCreditOf bothSidesLines ∧
    totalDebitOf bothSidesLines ≠ 0 :=
  claim8_entry_level_validation demoInit demoBoth ⟨2025, 1, 10⟩
    bothSidesLines true ⟨0, 5, 5, JournalStatus.POSTED⟩ demoBoth_create

/-! ## C6 and C10: the repayment allocator -/

/-- Outstanding principal plus interest of one schedule row. -/
def outstandingOf (sch : LoanScheduleRow) : ℚ :=
  (sch.principalDue - sch.principalPaid) + (sch.interestDue - sch.interestPaid)

/-- Total outstanding across a row list. -/
def totalOutstanding (rows : List LoanScheduleRow) : ℚ :=
  (rows.map outstandingOf).sum

/-- Paid amounts never exceed the dues (the allocator maintains this and
the schedule calculator creates rows with zero paid amounts). -/
def RowsOk (rows : List LoanScheduleRow) : Prop :=
  ∀ sch ∈ rows, sch.principalPaid ≤ sch.principalDue ∧
    sch.interestPaid ≤ sch.interestDue

theorem totalOutstanding_nonneg {rows : List LoanScheduleRow}
    (h : RowsOk rows) : 0 ≤ totalOutstanding rows := by
  induction rows with
  | nil => simp [totalOutstanding]
  | cons sch rest ih =>
    have h1 := h sch (List.mem_cons_self sch rest)
    have h2 : (0 : ℚ) ≤ outstandingOf sch := by
      unfold outstandingOf
      have := h1.1
      have := h1.2
      linarith
    have h3 := ih fun x hx => h x (List.mem_cons_of_mem sch hx)
    simp only [totalOutstanding, List.map_cons, List.sum_cons] at h3 ⊢
    linarith

/-- A zero payment allocates nothing. -/
theorem allocatePayment_zero (rows : List LoanScheduleRow) :
    allocatePayment 0 rows = (0, []) := by
  cases rows <;> rfl

/-- The allocator consumes exactly `min payment totalOutstanding`, split
across the updates, and returns the rest. -/
theorem allocatePayment_total (rows : List LoanScheduleRow) :
    ∀ rem, 0 ≤ rem → RowsOk rows →
    ((allocatePayment rem rows).2.map (fun u => u.principalPaid)).sum +
      ((allocatePayment rem rows).2.map (fun u => u.interestPaid)).sum =
      min rem (totalOutstanding rows) ∧
    (allocatePayment rem rows).1 = rem - min rem (totalOutstanding rows) := by
  induction rows with
  | nil =>
    intro rem h0 _
    constructor
    · simp [allocatePayment, totalOutstanding, min_eq_right h0]
    · simp [allocatePayment, totalOutstanding, min_eq_right h0]
  | cons sch rest ih =>
    intro rem h0 hok
    have hsch := hok sch (List.mem_cons_self sch rest)
    have hrest : RowsOk rest := fun x hx => hok x (List.mem_cons_of_mem sch hx)
    have hpo : 0 ≤ sch.principalDue - sch.principalPaid := by
      have := hsch.1; linarith
    have hio : 0 ≤ sch.interestDue - sch.interestPaid := by
      have := hsch.2; linarith
    have htotal : totalOutstanding (sch :: rest) =
        outstandingOf sch + totalOutstanding rest := by
      simp [totalOutstanding]
    have htrest : 0 ≤ totalOutstanding rest := totalOutstanding_nonneg hrest
    by_cases hz : rem = 0
    · subst hz
      rw [allocatePayment_zero]
      have hmin : (0:ℚ) ⊓ totalOutstanding (sch :: rest) = 0 :=
        min_eq_left (totalOutstanding_nonneg hok)
      rw [hmin]
      constructor
      · simp
      · simp
    · rw [allocatePayment]
      rw [if_neg hz]
      by_cases hzero : (sch.principalDue - sch.principalPaid) +
          (sch.interestDue - sch.interestPaid) = 0
      · rw [if_pos hzero]
        obtain ⟨hs, hr⟩ := ih rem h0 hrest
        have hout0 : outstandingOf sch = 0 := hzero
        rw [htotal, hout0, zero_add]
        exact ⟨hs, hr⟩
      · rw [if_neg hzero]
        simp only [List.map_cons, List.sum_cons]
        set iOut := sch.interestDue - sch.interestPaid with hiOutDef
        set pOut := sch.principalDue - sch.principalPaid with hpOutDef
        set ip := min iOut rem with hipDef
        set rem1 := rem - ip with hrem1Def
        set pp := min pOut rem1 with hppDef
        set rem2 := rem1 - pp with hrem2Def
        have hip0 : 0 ≤ ip := le_min hio h0
        have hiprem : ip ≤ rem := min_le_right _ _
        have hrem10 : 0 ≤ rem1 := by rw [hrem1Def]; linarith
        have hpp0 : 0 ≤ pp := le_min hpo hrem10
        have hpprem : pp ≤ rem1 := min_le_right _ _
        have hrem20 : 0 ≤ rem2 := by rw [hrem2Def]; linarith
        obtain ⟨hs, hr⟩ := ih rem2 hrem20 hrest
        rw [htotal]
        unfold outstandingOf
        rw [← hiOutDef, ← hpOutDef]
        rcases le_or_lt rem iOut with hcase | hcase
        · -- the whole payment goes to the first row's interest
          have hipv : ip = rem := min_eq_right hcase
          have hppv : pp = 0 := by
            rw [hppDef, hrem1Def, hipv, sub_self]
            exact min_eq_right hpo
          have hrem2v : rem2 = 0 := by
            rw [hrem2Def, hrem1Def, hipv, hppv]; ring
          have h2 : rem2 ⊓ totalOutstanding rest = 0 := by
            rw [hrem2v]; exact min_eq_left htrest
          have hmin : rem ⊓ (pOut + iOut + totalOutstanding rest) = rem :=
            min_eq_left (by linarith)
          constructor
          · show pp + _ + (ip + _) = _
            rw [hmin]
            linarith [hs]
          · show (allocatePayment rem2 rest).1 =
              rem - rem ⊓ (pOut + iOut + totalOutstanding rest)
            rw [hmin]
            linarith [hr]
        · have hipv : ip = iOut := min_eq_left hcase.le
          rcases le_or_lt rem1 pOut with hcase2 | hcase2
          · -- interest fully covered, principal takes the rest
            have hppv : pp = rem1 := min_eq_right hcase2
            have hrem2v : rem2 = 0 := by rw [hrem2Def, hppv]; ring
            have h2 : rem2 ⊓ totalOutstanding rest = 0 := by
              rw [hrem2v]; exact min_eq_left htrest
            have hmin : rem ⊓ (pOut + iOut + totalOutstanding rest) = rem :=
              min_eq_left (by
                rw [hrem1Def, hipv] at hcase2
                linarith)
            constructor
            · show pp + _ + (ip + _) = _
              rw [hmin]
              linarith [hs]
            · show (allocatePayment rem2 rest).1 =
                rem - rem ⊓ (pOut + iOut + totalOutstanding rest)
              rw [hmin]
              linarith [hr]
          · -- first row fully covered, recurse on the rest
            have hppv : pp = pOut := min_eq_left hcase2.le
            have hrem2v : rem2 = rem - (pOut + iOut) := by
              rw [hrem2Def, hppv, hrem1Def, hipv]; ring
            rcases le_or_lt rem2 (totalOutstanding rest) with hcase3 | hcase3
            · have h2 : rem2 ⊓ totalOutstanding rest = rem2 :=
                min_eq_left hcase3
              have hmin : rem ⊓ (pOut + iOut + totalOutstanding rest) = rem :=
                min_eq_left (by
                  rw [hrem2v] at hcase3
                  linarith)
              constructor
              · show pp + _ + (ip + _) = _
                rw [hmin]
                linarith [hs]
              · show (allocatePayment rem2 rest).1 =
                  rem - rem ⊓ (pOut + iOut + totalOutstanding rest)
                rw [hmin]
                linarith [hr]
            · have h2 : rem2 ⊓ totalOutstanding rest = totalOutstanding rest :=
                min_eq_right hcase3.le
              have hmin : rem ⊓ (pOut + iOut + totalOutstanding rest) =
                  pOut + iOut + totalOutstanding rest :=
                min_eq_right (by
                  rw [hrem2v] at hcase3
                  linarith)
              constructor
              · show pp + _ + (ip + _) = _
                rw [hmin]
                linarith [hs]
              · show (allocatePayment rem2 rest).1 =
                  rem - rem ⊓ (pOut + iOut + totalOutstanding rest)
                rw [hmin]
                linarith [hr]

/-- Per-update soundness of the allocation loop: every update targets a
fetched row, allocates nonnegative amounts within that row's outstanding
dues, pays interest fully before any principal, sets status PAID exactly
when both dues are reached (else PART_PAID), and can leave a row partially
covered only when the whole payment has been consumed. -/
theorem allocatePayment_sound (rows : List LoanScheduleRow) :
    ∀ rem, 0 ≤ rem → RowsOk rows →
    ∀ u ∈ (allocatePayment rem rows).2, ∃ sch, sch ∈ rows ∧
      u.id = sch.id ∧
      0 ≤ u.interestPaid ∧ 0 ≤ u.principalPaid ∧
      u.interestPaid ≤ sch.interestDue - sch.interestPaid ∧
      u.principalPaid ≤ sch.principalDue - sch.principalPaid ∧
      (0 < u.principalPaid →
        sch.interestPaid + u.interestPaid = sch.interestDue) ∧
      (u.status = ScheduleStatus.PAID ↔
        sch.principalDue ≤ sch.principalPaid + u.principalPaid ∧
        sch.interestDue ≤ sch.interestPaid + u.interestPaid) ∧
      (u.status = ScheduleStatus.PAID ∨ u.status = ScheduleStatus.PART_PAID) ∧
      (u.principalPaid + u.interestPaid <
          (sch.principalDue - sch.principalPaid) +
          (sch.interestDue - sch.interestPaid) →
        (allocatePayment rem rows).1 = 0) := by
  induction rows with
  | nil =>
    intro rem h0 _ u hu
    simp [allocatePayment] at hu
  | cons sch rest ih =>
    intro rem h0 hok u hu
    have hsch := hok sch (List.mem_cons_self sch rest)
    have hrest : RowsOk rest := fun x hx => hok x (List.mem_cons_of_mem sch hx)
    have hpo : 0 ≤ sch.principalDue - sch.principalPaid := by
      have := hsch.1; linarith
    have hio : 0 ≤ sch.interestDue - sch.interestPaid := by
      have := hsch.2; linarith
    by_cases hz : rem = 0
    · subst hz
      rw [allocatePayment_zero] at hu
      simp at hu
    · rw [allocatePayment, if_neg hz] at hu ⊢
      by_cases hzero : (sch.principalDue - sch.principalPaid) +
          (sch.interestDue - sch.interestPaid) = 0
      · rw [if_pos hzero] at hu ⊢
        obtain ⟨sch', hmem, hrest'⟩ := ih rem h0 hrest u hu
        exact ⟨sch', List.mem_cons_of_mem sch hmem, hrest'⟩
      · rw [if_neg hzero] at hu ⊢
        set iOut := sch.interestDue - sch.interestPaid with hiOutDef
        set pOut := sch.principalDue - sch.principalPaid with hpOutDef
        set ip := min iOut rem with hipDef
        set rem1 := rem - ip with hrem1Def
        set pp := min pOut rem1 with hppDef
        set rem2 := rem1 - pp with hrem2Def
        have hip0 : 0 ≤ ip := le_min hio h0
        have hiprem : ip ≤ rem := min_le_right _ _
        have hrem10 : 0 ≤ rem1 := by rw [hrem1Def]; linarith
        have hpp0 : 0 ≤ pp := le_min hpo hrem10
        have hpprem : pp ≤ rem1 := min_le_right _ _
        have hrem20 : 0 ≤ rem2 := by rw [hrem2Def]; linarith
        simp only [List.mem_cons] at hu
        rcases hu with hu | hu
    -- the update for the head row
        · subst hu
          refine ⟨sch, List.mem_cons_self sch rest, rfl, hip0, hpp0,
            min_le_left _ _, min_le_left _ _, ?_, ?_, ?_, ?_⟩
          · intro hppos
            have hlt : ip < rem := by
              by_contra hge
              have : ip = rem := le_antisymm hiprem (not_lt.mp hge)
              rw [hrem1Def, this, sub_self] at hpprem
              exact absurd (lt_of_lt_of_le hppos hpprem) (lt_irrefl 0)
            have : ip = iOut := by
              rcases min_cases iOut rem with ⟨h1, _⟩ | ⟨h1, h2⟩
              · rw [hipDef, h1]
              · rw [hipDef, h1] at hlt
                exact absurd hlt (lt_irrefl rem)
            rw [this, hiOutDef]
            ring
          · by_cases hfull : sch.principalDue ≤ sch.principalPaid + pp ∧
                sch.interestDue ≤ sch.interestPaid + ip
            · constructor
              · intro _
                exact hfull
              · intro _
                show (if _ then _ else _) = _
                rw [if_pos hfull]
            · constructor
              · intro habs
                have : (if sch.principalDue ≤ sch.principalPaid + pp ∧
                    sch.interestDue ≤ sch.interestPaid + ip
                    then ScheduleStatus.PAID else ScheduleStatus.PART_PAID) =
                    ScheduleStatus.PAID := habs
                rw [if_neg hfull] at this
                exact absurd this (by decide)
              · intro hc
                exact absurd hc hfull
          · by_cases hfull : sch.principalDue ≤ sch.principalPaid + pp ∧
                sch.interestDue ≤ sch.interestPaid + ip
            · left
              show (if _ then _ else _) = _
              rw [if_pos hfull]
            · right
              show (if _ then _ else _) = _
              rw [if_neg hfull]
          · show pp + ip < pOut + iOut → (allocatePayment rem2 rest).1 = 0
            intro hpart
            have hrem2z : rem2 = 0 := by
              rcases le_or_lt rem iOut with hcase | hcase
              · have hipv : ip = rem := min_eq_right hcase
                have hppv : pp = 0 := by
                  rw [hppDef, hrem1Def, hipv, sub_self]
                  exact min_eq_right hpo
                rw [hrem2Def, hrem1Def, hipv, hppv]; ring
              · have hipv : ip = iOut := min_eq_left hcase.le
                rcases le_or_lt rem1 pOut with hcase2 | hcase2
                · have hppv : pp = rem1 := min_eq_right hcase2
                  rw [hrem2Def, hppv]; ring
                · have hppv : pp = pOut := min_eq_left hcase2.le
                  rw [hppv, hipv] at hpart
                  exact absurd hpart (lt_irrefl _)
            rw [hrem2z, allocatePayment_zero]
        · obtain ⟨sch', hmem, hid, h1, h2, h3, h4, h5, h6, h7, h8⟩ :=
            ih rem2 hrem20 hrest u hu
          refine ⟨sch', List.mem_cons_of_mem sch hmem, hid, h1, h2, h3, h4,
            h5, h6, h7, ?_⟩
          intro hpart
          show (allocatePayment rem2 rest).1 = 0
          exact h8 hpart


/-! ## C4: the reducing-balance schedule -/

theorem round2_zero : round2 0 = 0 := by norm_num [round2]

/-- One unforced step of the reducing-balance loop:
`balance − (EMI − balance·rate)`. -/
def stepBal (emi r bal : ℚ) : ℚ := bal - (emi - bal * r)

/-- The running balance after `k` unforced steps. -/
def finalBal (emi r : ℚ) : ℕ → ℚ → ℚ
  | 0, bal => bal
  | k + 1, bal => finalBal emi r k (stepBal emi r bal)

/-- The unrounded principal portions telescope: their sum is the opening
balance minus the unforced final balance.  (The final-period forcing only
replaces the carried balance after the last principal is computed, so it
never affects any `exactPrincipalDue`.) -/
theorem reducingLoop_sum_exact (emi r : ℚ) : ∀ (k idx : ℕ) (bal : ℚ),
    ((reducingLoop emi r idx bal k).map
      (fun it => it.exactPrincipalDue)).sum = bal - finalBal emi r k bal := by
  intro k
  induction k with
  | zero =>
    intro idx bal
    simp [reducingLoop, finalBal]
  | succ k ih =>
    intro idx bal
    by_cases hk : k = 0
    · subst hk
      simp [reducingLoop, finalBal, stepBal]
    · have hcond : ¬(k = 0 ∧ (bal - (emi - bal * r)) ≠ 0) := fun hc => hk hc.1
      simp only [reducingLoop, List.map_cons, List.sum_cons, if_neg hcond]
      rw [ih (idx + 1) (bal - (emi - bal * r))]
      simp only [finalBal, stepBal]
      ring

/-- Dropping the head of a nonempty-tailed list keeps the last element. -/
theorem getLast?_cons_ne (x : ScheduleItem) (l : List ScheduleItem)
    (h : l ≠ []) : (x :: l).getLast? = l.getLast? := by
  cases l with
  | nil => exact absurd rfl h
  | cons y t => exact List.getLast?_cons_cons

/-- The last period of the loop always reports outstanding balance zero:
a nonzero residual is forced to zero, and a zero residual rounds to
zero. -/
theorem reducingLoop_last (emi r : ℚ) : ∀ (k idx : ℕ) (bal : ℚ),
    ((reducingLoop emi r idx bal (k + 1)).getLast?).map
      (fun it => it.outstandingBalance) = some 0 := by
  intro k
  induction k with
  | zero =>
    intro idx bal
    show (some (round2 (if (0 : ℕ) = 0 ∧ (bal - (emi - bal * r)) ≠ 0 then 0
      else bal - (emi - bal * r)))) = some 0
    by_cases hb : bal - (emi - bal * r) = 0
    · rw [if_neg (fun hc => hc.2 hb), hb, round2_zero]
    · rw [if_pos ⟨rfl, hb⟩, round2_zero]
  | succ k ih =>
    intro idx bal
    have hne : reducingLoop emi r (idx + 1)
        (if k + 1 = 0 ∧ (bal - (emi - bal * r)) ≠ 0 then 0
         else bal - (emi - bal * r)) (k + 1) ≠ [] := by
      intro hc
      rw [reducingLoop] at hc
      exact List.cons_ne_nil _ _ hc
    have hcons : reducingLoop emi r idx bal (k + 1 + 1) =
        { installmentNumber := idx
          principalDue := round2 (emi - bal * r)
          interestDue := round2 (bal * r)
          totalDue := round2 emi
          outstandingBalance := round2
            (if k + 1 = 0 ∧ (bal - (emi - bal * r)) ≠ 0 then 0
             else bal - (emi - bal * r))
          exactPrincipalDue := emi - bal * r
          exactInterestDue := bal * r } :: reducingLoop emi r (idx + 1)
            (if k + 1 = 0 ∧ (bal - (emi - bal * r)) ≠ 0 then 0
             else bal - (emi - bal * r)) (k + 1) := rfl
    rw [hcons, getLast?_cons_ne _ _ hne]
    exact ih (idx + 1) _

/-- Closed form of the unforced balance recursion. -/
theorem finalBal_closed (emi r : ℚ) (hr : r ≠ 0) : ∀ (n : ℕ) (bal : ℚ),
    finalBal emi r n bal = bal * (1 + r) ^ n - emi * ((1 + r) ^ n - 1) / r := by
  intro n
  induction n with
  | zero =>
    intro bal
    simp [finalBal]
  | succ n ih =>
    intro bal
    rw [finalBal, ih, stepBal]
    field_simp
    ring

/-- **C4** (amended): for every principal > 0, annual rate > 0 and tenure
n ≥ 1, the schedule of `calculateReducingBalanceSchedule` ends with
`outstandingBalance` exactly 0 and its unrounded principal portions
(`EMI − interest`, before the 2-dp output rounding) sum exactly to the
principal; the 2-dp-rounded `principalDue` outputs can drift from the
principal by accumulated rounding (see the counterexample).  In the
1,200,000 at 24% over 12 months scenario, period-1 `interestDue` is
24,000, the rounded EMI is 113,471.52 (not 113,067.93), and period-12
`outstandingBalance` is exactly 0. -/
theorem claim4_schedule_properties :
    (∀ (principal annualRate : ℚ) (n : ℕ),
      0 < principal → 0 < annualRate → 1 ≤ n →
      ((calculateReducingBalanceSchedule principal annualRate n).schedule.getLast?).map
        (fun it => it.outstandingBalance) = some 0 ∧
      ((calculateReducingBalanceSchedule principal annualRate n).schedule.map
        (fun it => it.exactPrincipalDue)).sum = principal) ∧
    ((calculateReducingBalanceSchedule 1200000 24 12).schedule.head?).map
      (fun it => it.interestDue) = some 24000 ∧
    (calculateReducingBalanceSchedule 1200000 24 12).monthlyInstalment =
      113471.52 ∧
    ((calculateReducingBalanceSchedule 1200000 24 12).schedule.getLast?).map
      (fun it => it.outstandingBalance) = some 0 := by
  have hmain : ∀ (principal annualRate : ℚ) (n : ℕ),
      0 < principal → 0 < annualRate → 1 ≤ n →
      ((calculateReducingBalanceSchedule principal annualRate n).schedule.getLast?).map
        (fun it => it.outstandingBalance) = some 0 ∧
      ((calculateReducingBalanceSchedule principal annualRate n).schedule.map
        (fun it => it.exactPrincipalDue)).sum = principal := by
    intro principal annualRate n hP hR hn
    obtain ⟨m, rfl⟩ : ∃ m, n = m + 1 :=
      ⟨n - 1, (Nat.succ_pred_eq_of_pos hn).symm⟩
    have hr0 : (0 : ℚ) < annualRate / 100 / 12 := by positivity
    have hrne : annualRate / 100 / 12 ≠ 0 := ne_of_gt hr0
    have hq : (1 : ℚ) < (annualRate / 100 / 12 + 1) ^ (m + 1) := by
      have h1 : (1 : ℚ) < annualRate / 100 / 12 + 1 := by linarith
      calc (1 : ℚ) = 1 ^ (m + 1) := (one_pow _).symm
        _ < (annualRate / 100 / 12 + 1) ^ (m + 1) :=
          pow_lt_pow_left₀ h1 (by norm_num) (by simp)
    have hqne : (annualRate / 100 / 12 + 1) ^ (m + 1) - 1 ≠ 0 := by
      intro hc
      have : (annualRate / 100 / 12 + 1) ^ (m + 1) = 1 := by linarith
      rw [this] at hq
      exact lt_irrefl _ hq
    constructor
    · exact reducingLoop_last _ _ m 1 principal
    · rw [show (calculateReducingBalanceSchedule principal annualRate
          (m + 1)).schedule = reducingLoop
            (principal * (annualRate / 100 / 12) *
              ((annualRate / 100 / 12) + 1) ^ (m + 1) /
              (((annualRate / 100 / 12) + 1) ^ (m + 1) - 1))
            (annualRate / 100 / 12) 1 principal (m + 1) from rfl]
      rw [reducingLoop_sum_exact, finalBal_closed _ _ hrne]
      set r := annualRate / 100 / 12 with hrdef
      rw [show (1 : ℚ) + r = r + 1 from by ring]
      set q := (r + 1) ^ (m + 1) with hqdef
      field_simp
      ring
  refine ⟨hmain, ?_, ?_, ?_⟩
  · have hhead : ((calculateReducingBalanceSchedule 1200000 24 12).schedule.head?).map
        (fun it => it.interestDue) = some (round2 (1200000 * (24 / 100 / 12))) := rfl
    rw [hhead]
    norm_num [round2]
  · show round2 (1200000 * (24 / 100 / 12) * ((24 / 100 / 12) + 1) ^ 12 /
      (((24 / 100 / 12) + 1) ^ 12 - 1)) = 113471.52
    norm_num [round2]
  · exact reducingLoop_last _ _ 11 1 1200000

/-- Witness for `claim4_schedule_properties` at the scenario inputs. -/
theorem claim4_schedule_properties_witness :
    ((calculateReducingBalanceSchedule 1200000 24 12).schedule.getLast?).map
      (fun it => it.outstandingBalance) = some 0 ∧
    ((calculateReducingBalanceSchedule 1200000 24 12).schedule.map
      (fun it => it.exactPrincipalDue)).sum = 1200000 :=
  claim4_schedule_properties.1 1200000 24 12 (by norm_num) (by norm_num)
    (by norm_num)

/-- **C4** (counterexample): at the claim's own scenario — principal
1,200,000, annual rate 24, tenure 12 — the sum of the 2-dp-rounded
`principalDue` outputs is 1,200,000.01, not the principal, and the rounded
EMI is 113,471.52, not ≈ 113,067.93. -/
theorem claim4_rounded_sum_counterexample :
    ((calculateReducingBalanceSchedule 1200000 24 12).schedule.map
      (fun it => it.principalDue)).sum = 1200000.01 ∧
    (1200000.01 : ℚ) ≠ 1200000 ∧
    (calculateReducingBalanceSchedule 1200000 24 12).monthlyInstalment =
      113471.52 ∧
    (113471.52 : ℚ) ≠ 113067.93 := by
  refine ⟨?_, by norm_num, ?_, by norm_num⟩
  · norm_num [calculateReducingBalanceSchedule, reducingLoop, round2]
  · show round2 (1200000 * (24 / 100 / 12) * ((24 / 100 / 12) + 1) ^ 12 /
      (((24 / 100 / 12) + 1) ^ 12 - 1)) = 113471.52
    norm_num [round2]

/-! ## C9: the trial balance -/

/-- Summation distributes over pointwise addition. -/
theorem sum_map_add {α : Type} (l : List α) (f g : α → ℚ) :
    (l.map (fun x => f x + g x)).sum = (l.map f).sum + (l.map g).sum := by
  induction l with
  | nil => simp
  | cons x xs ih => simp [ih]; ring

/-- Double sums over two lists commute. -/
theorem sum_exchange {α β : Type} (A : List α) (B : List β) (g : α → β → ℚ) :
    (A.map (fun a => (B.map (g a)).sum)).sum =
      (B.map (fun b => (A.map (fun a => g a b)).sum)).sum := by
  induction A with
  | nil => simp
  | cons x xs ih =>
    simp only [List.map_cons, List.sum_cons, ih]
    rw [← sum_map_add]

/-- A sum of id-guarded contributions over a list without a matching id
vanishes. -/
theorem sum_guard_zero (A : List Account) (aid : String) (q : ℚ)
    (h : ∀ a ∈ A, a.id ≠ aid) :
    (A.map (fun a =>
      if a.id = aid ∧ a.isActive ∧ ¬a.isHeader then q else 0)).sum = 0 := by
  induction A with
  | nil => rfl
  | cons x xs ih =>
    simp only [List.map_cons, List.sum_cons]
    rw [if_neg (by intro hc; exact h x (List.mem_cons_self x xs) hc.1)]
    rw [ih fun a ha => h a (List.mem_cons_of_mem x ha)]
    ring

/-- With unique account ids and a matching active non-header account
present, the guarded sum collapses to the single contribution. -/
theorem sum_single_match (A : List Account) (aid : String) (q : ℚ)
    (hnd : (A.map (fun a => a.id)).Nodup)
    (hok : ∃ a ∈ A, a.id = aid ∧ a.isActive ∧ ¬a.isHeader) :
    (A.map (fun a =>
      if a.id = aid ∧ a.isActive ∧ ¬a.isHeader then q else 0)).sum = q := by
  induction A with
  | nil => rcases hok with ⟨a, ha, -⟩; exact absurd ha (by simp)
  | cons x xs ih =>
    rcases hok with ⟨a0, ha0, hid0, hact0, hhd0⟩
    simp only [List.map_cons, List.sum_cons]
    by_cases hx : x.id = aid
    · have hxa : a0 = x := by
        rcases List.mem_cons.mp ha0 with rfl | htl
        · rfl
        · exfalso
          have : x.id ∈ xs.map (fun a => a.id) := by
            rw [hx, ← hid0]
            exact List.mem_map_of_mem _ htl
          exact (List.nodup_cons.mp hnd).1 this
      rw [if_pos ⟨hx, hxa ▸ hact0, hxa ▸ hhd0⟩]
      rw [sum_guard_zero xs aid q]
      · ring
      · intro a ha hc
        have : x.id ∈ xs.map (fun a => a.id) := by
          rw [hx, ← hc]
          exact List.mem_map_of_mem _ ha
        exact (List.nodup_cons.mp hnd).1 this
    · have ha0tl : a0 ∈ xs := by
        rcases List.mem_cons.mp ha0 with rfl | htl
        · exact absurd hid0 hx
        · exact htl
      rw [if_neg (fun hc => hx hc.1)]
      rw [ih (List.nodup_cons.mp hnd).2 ⟨a0, ha0tl, hid0, hact0, hhd0⟩]
      ring

/-- The debit column minus the credit column of one trial-balance row is
the balance on the debit side. -/
theorem trialColumns_sub (a : Account) (balance : ℚ) :
    (trialColumns a balance).1 - (trialColumns a balance).2 =
      match a.normalBalance with
      | BalanceType.DEBIT => balance
      | BalanceType.CREDIT => -balance := by
  unfold trialColumns
  cases hnb : a.normalBalance <;> by_cases hb : 0 ≤ balance
  · simp [hb]
  · simp [hb, abs_of_neg (lt_of_not_le hb)]
  · simp [hb]
  · simp [hb, abs_of_neg (lt_of_not_le hb)]

/-- A nonnegative amount equals its positive part. -/
theorem posPart_of_nonneg {q : ℚ} (h : 0 ≤ q) : posPart q = q := by
  rcases lt_or_eq_of_le h with h | h
  · rw [posPart, if_pos h]
  · rw [posPart, ← h]
    simp

/-- The signed line sums of one entry against one account, as a guarded
sum over the entry's lines. -/
theorem storedDebits_sub_credits (ls : List JournalLine) (aid : String) :
    storedDebits ls aid - storedCredits ls aid =
      (ls.map (fun l =>
        if l.accountId = aid then l.debitAmount - l.creditAmount else 0)).sum := by
  unfold storedDebits storedCredits
  rw [← sum_map_sub, sum_map_filter_eq]
  refine congrArg _ (List.map_congr_left fun l _ => ?_)
  by_cases hl : l.accountId = aid <;> simp [hl]

/-- **C9** (amended): in every reachable state whose accounts all have
opening balance zero (as seeded) and whose persisted line amounts are all
nonnegative, the trial balance's total debit column equals its total
credit column for every `asOfDate`; and — unconditionally — every reported
row has a nonzero column, i.e. every active non-header account whose
computed balance is zero is excluded. -/
theorem claim9_trial_balance_balanced {s : LState} (hs : Reachable s)
    (hopen0 : ∀ a ∈ s.accounts, a.openingBalance = 0)
    (hnn : ∀ e ∈ s.entries, ∀ l ∈ e.lines,
      0 ≤ l.debitAmount ∧ 0 ≤ l.creditAmount)
    (asOfDate : Option Date) :
    (generateTrialBalance s asOfDate).2.1 =
      (generateTrialBalance s asOfDate).2.2 ∧
    ∀ r ∈ (generateTrialBalance s asOfDate).1,
      ¬(r.debitBalance = 0 ∧ r.creditBalance = 0) := by
  obtain ⟨-, -, htot, -, handup, haok⟩ := reachable_wf hs
  constructor
  · -- the difference of the two column totals vanishes
    unfold generateTrialBalance
    simp only
    rw [← sub_eq_zero, ← sum_map_sub, sum_map_filter_eq]
    have hstep1 : ∀ (rows : List TrialBalanceRow),
        (rows.map (fun r =>
          if decide (r.debitBalance ≠ 0 ∨ r.creditBalance ≠ 0) = true then
            r.debitBalance - r.creditBalance else 0)).sum =
        (rows.map (fun r => r.debitBalance - r.creditBalance)).sum := by
      intro rows
      refine congrArg _ (List.map_congr_left fun r _ => ?_)
      by_cases hr : r.debitBalance ≠ 0 ∨ r.creditBalance ≠ 0
      · rw [if_pos (by simpa using hr)]
      · push_neg at hr
        rw [if_neg (by simpa using hr), hr.1, hr.2]
        ring
    rw [hstep1, List.map_map]
    -- per eligible account, the row difference is the raw line sum
    have hstep2 : ∀ a ∈ s.accounts.filter (fun a => a.isActive ∧ ¬a.isHeader),
        ((fun r : TrialBalanceRow => r.debitBalance - r.creditBalance) ∘
          fun a => TrialBalanceRow.mk a.accountCode
            (trialColumns a (accountBalanceValue s a asOfDate).balance).1
            (trialColumns a (accountBalanceValue s a asOfDate).balance).2) a =
        ((s.entries.filter (fun e => e.status = JournalStatus.POSTED ∧
            withinAsOf asOfDate e.entryDate)).map
          (fun e => storedDebits e.lines a.id - storedCredits e.lines a.id)).sum := by
      intro a ha
      have hmem : a ∈ s.accounts := (List.mem_filter.mp ha).1
      show (trialColumns a (accountBalanceValue s a asOfDate).balance).1 -
        (trialColumns a (accountBalanceValue s a asOfDate).balance).2 = _
      rw [trialColumns_sub, accountBalanceValue_balance, hopen0 a hmem]
      cases hnb : a.normalBalance
      · simp only [storedDelta, hnb, zero_add]
      · simp only [storedDelta, hnb, zero_add]
        rw [sum_map_sub, sum_map_sub]
        ring
    rw [List.map_congr_left hstep2]
    -- each posted entry contributes zero across the account table
    rw [sum_exchange]
    have hentry : ∀ e ∈ s.entries.filter
        (fun e => e.status = JournalStatus.POSTED ∧
          withinAsOf asOfDate e.entryDate),
        ((s.accounts.filter (fun a => a.isActive ∧ ¬a.isHeader)).map
          (fun a => storedDebits e.lines a.id - storedCredits e.lines a.id)).sum
          = 0 := by
      intro e he
      have hemem : e ∈ s.entries := List.mem_of_mem_filter he
      have hline : ∀ l ∈ e.lines,
          ((s.accounts.filter (fun a => a.isActive ∧ ¬a.isHeader)).map
            (fun a => if l.accountId = a.id then
              l.debitAmount - l.creditAmount else 0)).sum =
          l.debitAmount - l.creditAmount := by
        intro l hl
        rw [sum_map_filter_eq]
        have hshape : ∀ a : Account,
            (if decide (a.isActive = true ∧ ¬a.isHeader = true) = true then
              (if l.accountId = a.id then
                l.debitAmount - l.creditAmount else 0) else 0) =
            (if a.id = l.accountId ∧ a.isActive ∧ ¬a.isHeader then
              l.debitAmount - l.creditAmount else 0) := by
          intro a
          by_cases h1 : a.isActive = true ∧ ¬a.isHeader = true
          · by_cases h2 : l.accountId = a.id
            · rw [if_pos (by simpa using h1), if_pos h2, if_pos ⟨h2.symm, h1⟩]
            · rw [if_pos (by simpa using h1), if_neg h2,
                if_neg (fun hc => h2 hc.1.symm)]
          · rw [if_neg (by simpa using h1), if_neg (fun hc => h1 hc.2)]
        rw [List.map_congr_left (fun a _ => hshape a)]
        refine sum_single_match s.accounts l.accountId _ handup ?_
        have := haok e hemem l hl
        unfold accountOk at this
        rcases List.any_eq_true.mp this with ⟨a, hamem, hcond⟩
        exact ⟨a, hamem, by simpa using hcond⟩
      have hsum : ((s.accounts.filter (fun a => a.isActive ∧ ¬a.isHeader)).map
          (fun a => storedDebits e.lines a.id - storedCredits e.lines a.id)).sum
          = (e.lines.map (fun l => l.debitAmount - l.creditAmount)).sum := by
        have hrw : ∀ a ∈ s.accounts.filter (fun a => a.isActive ∧ ¬a.isHeader),
            storedDebits e.lines a.id - storedCredits e.lines a.id =
            (e.lines.map (fun l => if l.accountId = a.id then
              l.debitAmount - l.creditAmount else 0)).sum :=
          fun a _ => storedDebits_sub_credits e.lines a.id
        rw [List.map_congr_left hrw, sum_exchange]
        exact congrArg _ (List.map_congr_left fun l hl => hline l hl)
      rw [hsum]
      -- the entry's raw debit and credit sums agree (nonnegative amounts)
      obtain ⟨htd, htc, hdc, -⟩ := htot e hemem
      have hraw : (e.lines.map (fun l => l.debitAmount)).sum =
          (e.lines.map (fun l => l.creditAmount)).sum := by
        have h1 : (e.lines.map (fun l => l.debitAmount)).sum =
            storedPosDebit e.lines := by
          unfold storedPosDebit
          refine congrArg _ (List.map_congr_left fun l hl => ?_)
          exact (posPart_of_nonneg (hnn e hemem l hl).1).symm
        have h2 : (e.lines.map (fun l => l.creditAmount)).sum =
            storedPosCredit e.lines := by
          unfold storedPosCredit
          refine congrArg _ (List.map_congr_left fun l hl => ?_)
          exact (posPart_of_nonneg (hnn e hemem l hl).2).symm
        rw [h1, h2, ← htd, ← htc, hdc]
      rw [sum_map_sub, hraw]
      ring
    rw [List.map_congr_left hentry]
    simp
  · intro r hr
    unfold generateTrialBalance at hr
    simp only at hr
    have := (List.mem_filter.mp hr).2
    intro hc
    rw [hc.1, hc.2] at this
    simp at this

/-- Witness for `claim9_trial_balance_balanced` at the reachable state
`demoPosted` (zero openings, nonnegative line amounts). -/
theorem claim9_trial_balance_balanced_witness :
    (generateTrialBalance demoPosted none).2.1 =
      (generateTrialBalance demoPosted none).2.2 ∧
    ∀ r ∈ (generateTrialBalance demoPosted none).1,
      ¬(r.debitBalance = 0 ∧ r.creditBalance = 0) :=
  claim9_trial_balance_balanced demoPosted_reachable (by decide) (by decide)
    none

/-- Helper account with a negative stored debit amount in its only line. -/
def negAcct : Account := ⟨"neg", "1200", BalanceType.DEBIT, true, false, 0, 0⟩

/-- Three-account chart for the negative-amount counterexample. -/
def negInit : LState := ⟨[demoCash, demoIncome, negAcct], [], [], 0⟩

/-- A balanced-by-validation line list carrying a negative debit amount
(the −2 is invisible to `validateEntryBalance`, which sums only strictly
positive amounts). -/
def negLines : List JournalLineInput :=
  [⟨"cash", some 5, none⟩, ⟨"inc", none, some 5⟩, ⟨"neg", some (-2), none⟩]

/-- The state after `createJournalEntry` accepts `negLines`. -/
def negPosted : LState :=
  { accounts :=
      [{ demoCash with currentBalance := 5 },
       { demoIncome with currentBalance := 5 },
       { negAcct with currentBalance := -2 }]
    entries :=
      [{ id := 0
         entryDate := ⟨2025, 1, 10⟩
         status := JournalStatus.POSTED
         isReversed := false
         reversalEntryId := none
         lines := [⟨"cash", 5, 0⟩, ⟨"inc", 0, 5⟩, ⟨"neg", -2, 0⟩]
         totalDebit := 5
         totalCredit := 5 }]
    periods := []
    nextId := 1 }

/-- **C9** (counterexample): `createJournalEntry` accepts `negLines` —
its validation sums only positive amounts, so the −2 debit slips through —
and in the resulting state, where every entry is POSTED, the trial
balance's total debit column is 5 while the total credit column is 7. -/
theorem claim9_unbalanced_counterexample :
    createJournalEntry negInit ⟨2025, 1, 10⟩ negLines true =
      .ok (⟨0, 5, 5, JournalStatus.POSTED⟩, negPosted) ∧
    (∀ e ∈ negPosted.entries, e.status = JournalStatus.POSTED) ∧
    (generateTrialBalance negPosted none).2 = (5, 7) ∧
    (5 : ℚ) ≠ 7 := by
  refine ⟨?_, by decide, ?_, by norm_num⟩
  · simp +decide only [createJournalEntry, validatePeriodOpen, periodStatus,
      getFinancialPeriod, validateEntryBalance, totalDebitOf, totalCreditOf,
      posAmount, validateAccounts, accountOk, updateAccountBalances,
      balanceChange, lineDebits, lineCredits, numOrZero, persistLine,
      newEntryOf, negInit, negLines, negAcct, demoCash, demoIncome, negPosted,
      List.filter_cons, List.filter_nil, List.map_cons, List.map_nil,
      List.sum_cons, List.sum_nil, List.any_cons, List.any_nil,
      List.all_cons, List.all_nil, List.find?_cons, List.find?_nil]
    norm_num
  · simp [generateTrialBalance, accountBalanceValue,
      postedLinesFor, withinAsOf, trialColumns, negPosted, negAcct,
      demoCash, demoIncome,
      List.filter_cons, List.filter_nil]
    norm_num

/-- A row no update targets passes through `applyScheduleUpdates`
unchanged. -/
theorem applyScheduleUpdates_untouched (rows : List LoanScheduleRow)
    (upds : List ScheduleUpdate) (sch : LoanScheduleRow) (h : sch ∈ rows)
    (hn : upds.find? (fun u => u.id = sch.id) = none) :
    sch ∈ applyScheduleUpdates rows upds := by
  unfold applyScheduleUpdates
  refine List.mem_map.mpr ⟨sch, h, ?_⟩
  rw [hn]

/-- Validation totals of the repayment lines: the debit side is the full
payment, the credit side the sum of the two allocated portions. -/
theorem repaymentLines_totals (cid lid iid : String) (amount aP aI : ℚ)
    (hamount : 0 < amount) (hP : 0 ≤ aP) (hI : 0 ≤ aI) :
    totalDebitOf (repaymentLines cid lid iid amount aP aI) = amount ∧
    totalCreditOf (repaymentLines cid lid iid amount aP aI) = aP + aI := by
  have hP0 : ¬0 < aP → aP = 0 := fun h => le_antisymm (not_lt.mp h) hP
  have hI0 : ¬0 < aI → aI = 0 := fun h => le_antisymm (not_lt.mp h) hI
  unfold repaymentLines totalDebitOf totalCreditOf
  by_cases hp : 0 < aP <;> by_cases hi : 0 < aI
  · rw [if_pos hp, if_pos hi]
    constructor
    · simp [posAmount, hamount]
    · simp [posAmount, hp, hi]
  · rw [if_pos hp, if_neg hi]
    constructor
    · simp [posAmount, hamount]
    · simp [posAmount, hp, hI0 hi]
  · rw [if_neg hp, if_pos hi]
    constructor
    · simp [posAmount, hamount]
    · simp [posAmount, hi, hP0 hp]
  · rw [if_neg hp, if_neg hi]
    constructor
    · simp [posAmount, hamount]
    · simp [posAmount, hP0 hp, hI0 hi]

/-- Every account referenced by the repayment lines is one of the three
configured accounts, so the line validation passes when those are
postable. -/
theorem repaymentLines_accounts (s : LState) (cid lid iid : String)
    (amount aP aI : ℚ)
    (hc : accountOk s cid = true) (hl : accountOk s lid = true)
    (hi : accountOk s iid = true) :
    validateAccounts s
      ((repaymentLines cid lid iid amount aP aI).map
        (fun l => l.accountId)) = true := by
  unfold validateAccounts repaymentLines
  by_cases hp : 0 < aP <;> by_cases hii : 0 < aI
  · rw [if_pos hp, if_pos hii]
    simp [hc, hl, hi]
  · rw [if_pos hp, if_neg hii]
    simp [hc, hl]
  · rw [if_neg hp, if_pos hii]
    simp [hc, hi]
  · rw [if_neg hp, if_neg hii]
    simp [hc]

/-- `createJournalEntry` fails with `UnbalancedEntryError` carrying both
totals whenever they differ (and the period check passes). -/
theorem createJournalEntry_unbalanced (s : LState) (d : Date)
    (lines : List JournalLineInput) (auto : Bool)
    (hper : validatePeriodOpen s d = none)
    (hne : totalDebitOf lines ≠ totalCreditOf lines) :
    createJournalEntry s d lines auto =
      .error (.unbalanced (totalDebitOf lines) (totalCreditOf lines)) := by
  have hv : validateEntryBalance lines =
      .error (.unbalanced (totalDebitOf lines) (totalCreditOf lines)) := by
    unfold validateEntryBalance
    rw [if_pos hne]
  simp only [createJournalEntry, hper, hv]

/-- The update list the allocator produces for a repayment. -/
def allocUpds (rs : RepayState) (amount : ℚ) : List ScheduleUpdate :=
  (allocatePayment amount (outstandingRows rs.schedules)).2

/-- Principal portion of a repayment (`totalPrincipalPaid`). -/
def allocPrincipal (rs : RepayState) (amount : ℚ) : ℚ :=
  ((allocUpds rs amount).map (fun u => u.principalPaid)).sum

/-- Interest portion of a repayment (`totalInterestPaid`). -/
def allocInterest (rs : RepayState) (amount : ℚ) : ℚ :=
  ((allocUpds rs amount).map (fun u => u.interestPaid)).sum

/-- Both allocated portions are nonnegative. -/
theorem alloc_portions_nonneg (rs : RepayState) (amount : ℚ)
    (h0 : 0 ≤ amount) (hok : RowsOk (outstandingRows rs.schedules)) :
    0 ≤ allocPrincipal rs amount ∧ 0 ≤ allocInterest rs amount := by
  constructor
  · apply List.sum_nonneg
    intro x hx
    obtain ⟨u, hu, hux⟩ := List.mem_map.mp hx
    obtain ⟨sch, hmem, hid, hInn, hPnn, hrest⟩ :=
      allocatePayment_sound (outstandingRows rs.schedules) amount h0 hok u hu
    rw [← hux]
    exact hPnn
  · apply List.sum_nonneg
    intro x hx
    obtain ⟨u, hu, hux⟩ := List.mem_map.mp hx
    obtain ⟨sch, hmem, hid, hInn, hPnn, hrest⟩ :=
      allocatePayment_sound (outstandingRows rs.schedules) amount h0 hok u hu
    rw [← hux]
    exact hInn

/-- Forward evaluation of `processRepayment` through the status guard and
account lookups, in terms of the inner `createJournalEntry` succeeding. -/
theorem processRepayment_run_ok {rs : RepayState} {amount : ℚ} {today : Date}
    {lr cb ii : Account} {res0 : JournalEntryResult} {ledger2 : LState}
    (hst : rs.loanStatus = LoanStatus.ACTIVE ∨
      rs.loanStatus = LoanStatus.OVERDUE)
    (hlr : accountByCode rs.ledger LOANS_RECEIVABLE_CODE = some lr)
    (hcb : accountByCode rs.ledger CASH_BANK_CODE = some cb)
    (hii : accountByCode rs.ledger INTEREST_INCOME_CODE = some ii)
    (hcr : createJournalEntry rs.ledger today
      (repaymentLines cb.id lr.id ii.id amount (allocPrincipal rs amount)
        (allocInterest rs amount)) true = .ok (res0, ledger2)) :
    processRepayment rs amount today = .ok
      (⟨res0.id, allocPrincipal rs amount, allocInterest rs amount⟩,
       { ledger := ledger2
         loanStatus :=
           if ((applyScheduleUpdates rs.schedules (allocUpds rs amount)).filter
               (fun sch => sch.status ≠ ScheduleStatus.PAID)).length = 0
           then LoanStatus.CLOSED else rs.loanStatus
         schedules := applyScheduleUpdates rs.schedules (allocUpds rs amount)
         repayments := rs.repayments ++
           [⟨amount, allocPrincipal rs amount, allocInterest rs amount⟩] }) := by
  have hguard : ¬(rs.loanStatus ≠ LoanStatus.ACTIVE ∧
      rs.loanStatus ≠ LoanStatus.OVERDUE) := by
    rcases hst with h | h <;> simp [h]
  simp only [allocPrincipal, allocInterest, allocUpds] at hcr
  simp only [processRepayment, if_neg hguard, hlr, hcb, hii, hcr,
    allocPrincipal, allocInterest, allocUpds]

/-- Forward evaluation of `processRepayment` when the inner
`createJournalEntry` fails: the error propagates. -/
theorem processRepayment_run_err {rs : RepayState} {amount : ℚ} {today : Date}
    {lr cb ii : Account} {e : AccErr}
    (hst : rs.loanStatus = LoanStatus.ACTIVE ∨
      rs.loanStatus = LoanStatus.OVERDUE)
    (hlr : accountByCode rs.ledger LOANS_RECEIVABLE_CODE = some lr)
    (hcb : accountByCode rs.ledger CASH_BANK_CODE = some cb)
    (hii : accountByCode rs.ledger INTEREST_INCOME_CODE = some ii)
    (hcr : createJournalEntry rs.ledger today
      (repaymentLines cb.id lr.id ii.id amount (allocPrincipal rs amount)
        (allocInterest rs amount)) true = .error e) :
    processRepayment rs amount today = .error e := by
  have hguard : ¬(rs.loanStatus ≠ LoanStatus.ACTIVE ∧
      rs.loanStatus ≠ LoanStatus.OVERDUE) := by
    rcases hst with h | h <;> simp [h]
  simp only [allocPrincipal, allocInterest, allocUpds] at hcr
  simp only [processRepayment, if_neg hguard, hlr, hcb, hii, hcr]

/-- **C6**: for a servable loan (status ACTIVE/OVERDUE, the three configured
accounts resolvable and postable, an open period) with well-formed schedule
rows, and a positive payment of at most the total outstanding,
`processRepayment` succeeds; the allocated principal and interest portions
are nonnegative and sum to exactly the payment; exactly one new journal
entry is appended, POSTED and balanced, with a cash debit for the full
payment and credits for the allocated portions; rows no update targets pass
through unchanged; and every update targets a fetched outstanding row,
stays within its dues, satisfies outstanding interest before any principal,
becomes PAID exactly when both paid amounts reach their dues (else
PART_PAID), and leaves a row partially covered only when the payment has
been consumed in full. -/
theorem claim6_repayment_allocation {rs : RepayState} {amount : ℚ}
    {today : Date} {lr cb ii : Account}
    (hst : rs.loanStatus = LoanStatus.ACTIVE ∨
      rs.loanStatus = LoanStatus.OVERDUE)
    (hlr : accountByCode rs.ledger LOANS_RECEIVABLE_CODE = some lr)
    (hcb : accountByCode rs.ledger CASH_BANK_CODE = some cb)
    (hii : accountByCode rs.ledger INTEREST_INCOME_CODE = some ii)
    (hper : validatePeriodOpen rs.ledger today = none)
    (haclr : accountOk rs.ledger lr.id = true)
    (haccb : accountOk rs.ledger cb.id = true)
    (hacii : accountOk rs.ledger ii.id = true)
    (hok : RowsOk rs.schedules)
    (hpos : 0 < amount)
    (hle : amount ≤ totalOutstanding (outstandingRows rs.schedules)) :
    ∃ rs', processRepayment rs amount today = .ok
      (⟨rs.ledger.nextId, allocPrincipal rs amount, allocInterest rs amount⟩,
        rs') ∧
      allocPrincipal rs amount + allocInterest rs amount = amount ∧
      0 ≤ allocPrincipal rs amount ∧ 0 ≤ allocInterest rs amount ∧
      rs'.ledger.entries = rs.ledger.entries ++
        [newEntryOf rs.ledger today
          (repaymentLines cb.id lr.id ii.id amount (allocPrincipal rs amount)
            (allocInterest rs amount)) true] ∧
      (newEntryOf rs.ledger today
        (repaymentLines cb.id lr.id ii.id amount (allocPrincipal rs amount)
          (allocInterest rs amount)) true).status = JournalStatus.POSTED ∧
      totalDebitOf (repaymentLines cb.id lr.id ii.id amount
        (allocPrincipal rs amount) (allocInterest rs amount)) = amount ∧
      totalCreditOf (repaymentLines cb.id lr.id ii.id amount
        (allocPrincipal rs amount) (allocInterest rs amount)) = amount ∧
      rs'.schedules = applyScheduleUpdates rs.schedules (allocUpds rs amount) ∧
      (∀ sch ∈ rs.schedules,
        (allocUpds rs amount).find? (fun u => u.id = sch.id) = none →
        sch ∈ rs'.schedules) ∧
      (∀ u ∈ allocUpds rs amount, ∃ sch, sch ∈ outstandingRows rs.schedules ∧
        u.id = sch.id ∧
        0 ≤ u.interestPaid ∧ 0 ≤ u.principalPaid ∧
        u.interestPaid ≤ sch.interestDue - sch.interestPaid ∧
        u.principalPaid ≤ sch.principalDue - sch.principalPaid ∧
        (0 < u.principalPaid →
          sch.interestPaid + u.interestPaid = sch.interestDue) ∧
        (u.status = ScheduleStatus.PAID ↔
          sch.principalDue ≤ sch.principalPaid + u.principalPaid ∧
          sch.interestDue ≤ sch.interestPaid + u.interestPaid) ∧
        (u.status = ScheduleStatus.PAID ∨
          u.status = ScheduleStatus.PART_PAID) ∧
        (u.principalPaid + u.interestPaid <
            (sch.principalDue - sch.principalPaid) +
            (sch.interestDue - sch.interestPaid) →
          (allocatePayment amount (outstandingRows rs.schedules)).1 = 0)) := by
  have hokF : RowsOk (outstandingRows rs.schedules) := by
    intro sch hs
    exact hok sch (List.mem_of_mem_filter hs)
  have h0 : 0 ≤ amount := hpos.le
  have htot := (allocatePayment_total (outstandingRows rs.schedules)
    amount h0 hokF).1
  have hsum : allocPrincipal rs amount + allocInterest rs amount = amount := by
    simp only [allocPrincipal, allocInterest, allocUpds]
    rw [htot, min_eq_left hle]
  obtain ⟨hP, hI⟩ := alloc_portions_nonneg rs amount h0 hokF
  obtain ⟨htd, htc⟩ := repaymentLines_totals cb.id lr.id ii.id amount
    (allocPrincipal rs amount) (allocInterest rs amount) hpos hP hI
  have htc' : totalCreditOf (repaymentLines cb.id lr.id ii.id amount
      (allocPrincipal rs amount) (allocInterest rs amount)) = amount := by
    rw [htc, hsum]
  have hbal : totalDebitOf (repaymentLines cb.id lr.id ii.id amount
      (allocPrincipal rs amount) (allocInterest rs amount)) =
      totalCreditOf (repaymentLines cb.id lr.id ii.id amount
      (allocPrincipal rs amount) (allocInterest rs amount)) := by
    rw [htd, htc']
  have hnz : totalDebitOf (repaymentLines cb.id lr.id ii.id amount
      (allocPrincipal rs amount) (allocInterest rs amount)) ≠ 0 := by
    rw [htd]
    exact ne_of_gt hpos
  have hacc := repaymentLines_accounts rs.ledger cb.id lr.id ii.id amount
    (allocPrincipal rs amount) (allocInterest rs amount) haccb haclr hacii
  have hcr := createJournalEntry_succeeds rs.ledger today
    (repaymentLines cb.id lr.id ii.id amount (allocPrincipal rs amount)
      (allocInterest rs amount)) true hper hbal hnz hacc
  have hrun := processRepayment_run_ok hst hlr hcb hii hcr
  refine ⟨_, hrun, hsum, hP, hI, rfl, rfl, htd, htc', rfl, ?_, ?_⟩
  · intro sch hmem hnone
    exact applyScheduleUpdates_untouched rs.schedules (allocUpds rs amount)
      sch hmem hnone
  · intro u hu
    have hu' : u ∈ (allocatePayment amount (outstandingRows rs.schedules)).2 := hu
    exact allocatePayment_sound (outstandingRows rs.schedules) amount h0 hokF u hu'

/-- **C10**: when the payment strictly exceeds the loan's total outstanding
(interest plus principal over the fetched rows), the derived journal entry's
cash debit (the full payment) exceeds its credits (only the allocated
portions, which total exactly the outstanding), so `createJournalEntry`
raises `UnbalancedEntryError` with those two totals and `processRepayment`
propagates it — the transaction never reaches the schedule or repayment
writes, so in this error-free-state embedding nothing is persisted. -/
theorem claim10_overpayment_unbalanced {rs : RepayState} {amount : ℚ}
    {today : Date} {lr cb ii : Account}
    (hst : rs.loanStatus = LoanStatus.ACTIVE ∨
      rs.loanStatus = LoanStatus.OVERDUE)
    (hlr : accountByCode rs.ledger LOANS_RECEIVABLE_CODE = some lr)
    (hcb : accountByCode rs.ledger CASH_BANK_CODE = some cb)
    (hii : accountByCode rs.ledger INTEREST_INCOME_CODE = some ii)
    (hper : validatePeriodOpen rs.ledger today = none)
    (hok : RowsOk rs.schedules)
    (hgt : totalOutstanding (outstandingRows rs.schedules) < amount) :
    processRepayment rs amount today = .error
      (.unbalanced amount (totalOutstanding (outstandingRows rs.schedules))) := by
  have hokF : RowsOk (outstandingRows rs.schedules) := by
    intro sch hs
    exact hok sch (List.mem_of_mem_filter hs)
  have hpos : 0 < amount :=
    lt_of_le_of_lt (totalOutstanding_nonneg hokF) hgt
  have h0 : 0 ≤ amount := hpos.le
  have htot := (allocatePayment_total (outstandingRows rs.schedules)
    amount h0 hokF).1
  have hsum : allocPrincipal rs amount + allocInterest rs amount =
      totalOutstanding (outstandingRows rs.schedules) := by
    simp only [allocPrincipal, allocInterest, allocUpds]
    rw [htot, min_eq_right hgt.le]
  obtain ⟨hP, hI⟩ := alloc_portions_nonneg rs amount h0 hokF
  obtain ⟨htd, htc⟩ := repaymentLines_totals cb.id lr.id ii.id amount
    (allocPrincipal rs amount) (allocInterest rs amount) hpos hP hI
  have htc' : totalCreditOf (repaymentLines cb.id lr.id ii.id amount
      (allocPrincipal rs amount) (allocInterest rs amount)) =
      totalOutstanding (outstandingRows rs.schedules) := by
    rw [htc, hsum]
  have hne : totalDebitOf (repaymentLines cb.id lr.id ii.id amount
      (allocPrincipal rs amount) (allocInterest rs amount)) ≠
      totalCreditOf (repaymentLines cb.id lr.id ii.id amount
      (allocPrincipal rs amount) (allocInterest rs amount)) := by
    rw [htd, htc']
    exact ne_of_gt hgt
  have hcr0 := createJournalEntry_unbalanced rs.ledger today
    (repaymentLines cb.id lr.id ii.id amount (allocPrincipal rs amount)
      (allocInterest rs amount)) true hper hne
  rw [htd, htc'] at hcr0
  exact processRepayment_run_err hst hlr hcb hii hcr0

/-- Loans-receivable account (code 1300) for the repayment scenario. -/
def demoLR : Account := ⟨"lrA", "1300", BalanceType.DEBIT, true, false, 0, 0⟩

/-- Cash/bank account (code 1100) for the repayment scenario. -/
def demoCB : Account := ⟨"cbA", "1100", BalanceType.DEBIT, true, false, 0, 0⟩

/-- Interest-income account (code 4100) for the repayment scenario. -/
def demoII : Account := ⟨"iiA", "4100", BalanceType.CREDIT, true, false, 0, 0⟩

/-- The earliest unpaid installment of the spec scenario: remaining
principal due 60,000, interest due 10,000, nothing paid yet. -/
def demoRow : LoanScheduleRow :=
  ⟨"s1", ⟨2025, 2, 28⟩, 60000, 10000, 0, 0, ScheduleStatus.PENDING⟩

/-- Repayment scenario state: an ACTIVE loan with one outstanding row over
a fresh ledger holding the three configured accounts. -/
def demoRepay : RepayState :=
  ⟨⟨[demoLR, demoCB, demoII], [], [], 0⟩, LoanStatus.ACTIVE, [demoRow], []⟩

/-- Effective date of the scenario payments. -/
def demoPayDate : Date := ⟨2025, 3, 5⟩

theorem claim6_repayment_allocation_witness :
    allocUpds demoRepay 50000 =
      [⟨"s1", 40000, 10000, ScheduleStatus.PART_PAID⟩] ∧
    allocPrincipal demoRepay 50000 = 40000 ∧
    allocInterest demoRepay 50000 = 10000 ∧
    repaymentLines demoCB.id demoLR.id demoII.id 50000 40000 10000 =
      [⟨"cbA", some 50000, none⟩, ⟨"lrA", none, some 40000⟩,
       ⟨"iiA", none, some 10000⟩] ∧
    (∃ rs', processRepayment demoRepay 50000 demoPayDate = .ok
      (⟨demoRepay.ledger.nextId, allocPrincipal demoRepay 50000,
        allocInterest demoRepay 50000⟩, rs') ∧
      allocPrincipal demoRepay 50000 + allocInterest demoRepay 50000 = 50000 ∧
      0 ≤ allocPrincipal demoRepay 50000 ∧
      0 ≤ allocInterest demoRepay 50000 ∧
      rs'.ledger.entries = demoRepay.ledger.entries ++
        [newEntryOf demoRepay.ledger demoPayDate
          (repaymentLines demoCB.id demoLR.id demoII.id 50000
            (allocPrincipal demoRepay 50000)
            (allocInterest demoRepay 50000)) true] ∧
      (newEntryOf demoRepay.ledger demoPayDate
        (repaymentLines demoCB.id demoLR.id demoII.id 50000
          (allocPrincipal demoRepay 50000)
          (allocInterest demoRepay 50000)) true).status =
        JournalStatus.POSTED ∧
      totalDebitOf (repaymentLines demoCB.id demoLR.id demoII.id 50000
        (allocPrincipal demoRepay 50000)
        (allocInterest demoRepay 50000)) = 50000 ∧
      totalCreditOf (repaymentLines demoCB.id demoLR.id demoII.id 50000
        (allocPrincipal demoRepay 50000)
        (allocInterest demoRepay 50000)) = 50000 ∧
      rs'.schedules = applyScheduleUpdates demoRepay.schedules
        (allocUpds demoRepay 50000) ∧
      (∀ sch ∈ demoRepay.schedules,
        (allocUpds demoRepay 50000).find? (fun u => u.id = sch.id) = none →
        sch ∈ rs'.schedules) ∧
      (∀ u ∈ allocUpds demoRepay 50000, ∃ sch,
        sch ∈ outstandingRows demoRepay.schedules ∧
        u.id = sch.id ∧
        0 ≤ u.interestPaid ∧ 0 ≤ u.principalPaid ∧
        u.interestPaid ≤ sch.interestDue - sch.interestPaid ∧
        u.principalPaid ≤ sch.principalDue - sch.principalPaid ∧
        (0 < u.principalPaid →
          sch.interestPaid + u.interestPaid = sch.interestDue) ∧
        (u.status = ScheduleStatus.PAID ↔
          sch.principalDue ≤ sch.principalPaid + u.principalPaid ∧
          sch.interestDue ≤ sch.interestPaid + u.interestPaid) ∧
        (u.status = ScheduleStatus.PAID ∨
          u.status = ScheduleStatus.PART_PAID) ∧
        (u.principalPaid + u.interestPaid <
            (sch.principalDue - sch.principalPaid) +
            (sch.interestDue - sch.interestPaid) →
          (allocatePayment 50000 (outstandingRows demoRepay.schedules)).1 =
            0))) := by
  have halloc : allocUpds demoRepay 50000 =
      [⟨"s1", 40000, 10000, ScheduleStatus.PART_PAID⟩] := by
    norm_num [allocUpds, allocatePayment, outstandingRows, demoRepay, demoRow,
      min_def, List.filter_cons, List.filter_nil]
  have hap : allocPrincipal demoRepay 50000 = 40000 := by
    rw [allocPrincipal, halloc]
    norm_num
  have hai : allocInterest demoRepay 50000 = 10000 := by
    rw [allocInterest, halloc]
    norm_num
  have hlines : repaymentLines demoCB.id demoLR.id demoII.id 50000
      40000 10000 =
      [⟨"cbA", some 50000, none⟩, ⟨"lrA", none, some 40000⟩,
       ⟨"iiA", none, some 10000⟩] := by
    norm_num [repaymentLines, demoCB, demoLR, demoII]
  refine ⟨halloc, hap, hai, hlines,
    @claim6_repayment_allocation demoRepay 50000 demoPayDate
      demoLR demoCB demoII (Or.inl rfl) rfl rfl rfl rfl rfl rfl rfl
      (by
        intro sch hs
        simp only [demoRepay, List.mem_singleton] at hs
        subst hs
        exact ⟨by norm_num [demoRow], by norm_num [demoRow]⟩)
      (by norm_num)
      (by norm_num [totalOutstanding, outstandingRows, outstandingOf,
        demoRepay, demoRow, List.filter_cons, List.filter_nil])⟩

theorem claim10_overpayment_unbalanced_witness :
    totalOutstanding (outstandingRows demoRepay.schedules) = 70000 ∧
    processRepayment demoRepay 80000 demoPayDate =
      .error (.unbalanced 80000 70000) := by
  have he : totalOutstanding (outstandingRows demoRepay.schedules) =
      70000 := by
    norm_num [totalOutstanding, outstandingRows, outstandingOf,
      demoRepay, demoRow, List.filter_cons, List.filter_nil]
  have h := @claim10_overpayment_unbalanced demoRepay 80000 demoPayDate
    demoLR demoCB demoII (Or.inl rfl) rfl rfl rfl rfl
    (by
      intro sch hs
      simp only [demoRepay, List.mem_singleton] at hs
      subst hs
      exact ⟨by norm_num [demoRow], by norm_num [demoRow]⟩)
    (by rw [he]; norm_num)
  rw [he] at h
  exact ⟨he, h⟩

/-- Counterexample to C6's universal quantification over payment amounts:
for a payment exceeding the total outstanding (80,000 against 70,000) no
journal entry is posted at all — the run aborts with
`UnbalancedEntryError`. -/
theorem claim6_overpay_counterexample :
    processRepayment demoRepay 80000 demoPayDate =
      .error (.unbalanced 80000 70000) := by
  have halloc : allocUpds demoRepay 80000 =
      [⟨"s1", 60000, 10000, ScheduleStatus.PAID⟩] := by
    norm_num [allocUpds, allocatePayment, outstandingRows, demoRepay, demoRow,
      min_def, List.filter_cons, List.filter_nil]
  have hap : allocPrincipal demoRepay 80000 = 60000 := by
    rw [allocPrincipal, halloc]
    norm_num
  have hai : allocInterest demoRepay 80000 = 10000 := by
    rw [allocInterest, halloc]
    norm_num
  have htd2 : totalDebitOf (repaymentLines demoCB.id demoLR.id demoII.id
      80000 60000 10000) = 80000 := by
    norm_num [repaymentLines, totalDebitOf, posAmount, demoCB, demoLR, demoII]
  have htc2 : totalCreditOf (repaymentLines demoCB.id demoLR.id demoII.id
      80000 60000 10000) = 70000 := by
    norm_num [repaymentLines, totalCreditOf, posAmount, demoCB, demoLR, demoII]
  have hLa : repaymentLines demoCB.id demoLR.id demoII.id 80000
      (allocPrincipal demoRepay 80000) (allocInterest demoRepay 80000) =
      repaymentLines demoCB.id demoLR.id demoII.id 80000 60000 10000 := by
    rw [hap, hai]
  have hcrLit : createJournalEntry demoRepay.ledger demoPayDate
      (repaymentLines demoCB.id demoLR.id demoII.id 80000 60000 10000) true =
      .error (.unbalanced 80000 70000) := by
    have h1 := createJournalEntry_unbalanced demoRepay.ledger demoPayDate
      (repaymentLines demoCB.id demoLR.id demoII.id 80000 60000 10000) true
      rfl (by rw [htd2, htc2]; norm_num)
    rw [htd2, htc2] at h1
    exact h1
  have hcr : createJournalEntry demoRepay.ledger demoPayDate
      (repaymentLines demoCB.id demoLR.id demoII.id 80000
        (allocPrincipal demoRepay 80000) (allocInterest demoRepay 80000))
      true = .error (.unbalanced 80000 70000) := by
    rw [hLa]
    exact hcrLit
  exact processRepayment_run_err (Or.inl rfl) rfl rfl rfl hcr

end EMS
